import Mathlib

/-!
# Strawberry: the lazy object graph of `Application` and the `PlayingWidget` geometry

Shallow embedding of `src/core/application.cpp` and of the parts of
`src/widgets/playingwidget.cpp` that compute the cover size and that drive the
flags of the widget.

The object graph is modelled as a state record (`Application`) together with a
trace of observable actions (`Event`).  Code that lives outside the two source
files (the constructors and `Init()` methods of the subsystem classes) is a
parameter of the model (`Env`): for each of them the environment gives the
accessor calls it makes on the `Application` it receives.
-/

namespace Strawberry

/-! ## Strings -/

/-- QString of Qt, as the list of its characters. -/
abbrev QString := List Char

/-- Index of the first occurrence of `ch` in `s`, counting from `i`, or -1. -/
def QString.indexOfFrom : List Char → Char → Nat → Int
  | [], _, _ => -1
  | c :: cs, ch, i => if c = ch then (i : Int) else QString.indexOfFrom cs ch (i + 1)

/-- QString::indexOf(QChar): index of the first occurrence, or -1. -/
def QString.indexOf (s : QString) (ch : Char) : Int := QString.indexOfFrom s ch 0

/-- QString::left(n): the n leftmost characters; the entire string when n is
negative or at least the size. -/
def QString.left (s : QString) (n : Int) : QString :=
  if n < 0 ∨ (s.length : Int) ≤ n then s else s.take n.toNat

/-- Application::language_without_region (application.cpp, lines 154-160),
as a function of the member `language_name_`. -/
def language_without_region (language_name_ : QString) : QString :=
  let underscore := QString.indexOf language_name_ '_'
  if underscore ≠ -1 then QString.left language_name_ underscore else language_name_

/-! ## The object graph -/

/-- The thirteen `Lazy<>` members of `ApplicationImpl` (application.cpp, lines 96-108). -/
inductive Slot
  | tag_reader_client
  | database
  | appearance
  | task_manager
  | player
  | enginedevice
  | device_manager
  | collection
  | playlist_backend
  | playlist_manager
  | cover_providers
  | album_cover_loader
  | current_art_loader
  deriving DecidableEq, Repr, Fintype

/-- The members of `ApplicationImpl` in declaration order. -/
def Slot.all : List Slot :=
  [.tag_reader_client, .database, .appearance, .task_manager, .player, .enginedevice,
   .device_manager, .collection, .playlist_backend, .playlist_manager, .cover_providers,
   .album_cover_loader, .current_art_loader]

/-- The cover providers registered by the factory of `cover_providers_`. -/
inductive Provider
  | LastFm
  | Amazon
  | Discogs
  | Musicbrainz
  deriving DecidableEq, Repr, Fintype

/-- Identity of a QObject created by a factory (allocation counter). -/
abbrev ObjId := Nat

/-- Identity of a QThread; 0 is the main thread, worker threads count from 1. -/
abbrev ThreadId := Nat

/-- Who calls an accessor of `Application`. -/
inductive Caller
  /-- The body of `Application::Application`. -/
  | application
  /-- The factory lambda of a slot (`database_->thread()` in `playlist_backend_`). -/
  | factory (s : Slot)
  /-- The constructor of the class held by a slot, which receives `app`. -/
  | ctorOf (s : Slot)
  /-- The constructor of a cover provider, which receives `app`. -/
  | providerCtor (p : Provider)
  /-- The `Init()` method called by `Application::Application`. -/
  | initOf (s : Slot)
  /-- Any other code holding the `Application`. -/
  | client
  deriving DecidableEq, Repr

/-- Observable actions, recorded in order in `Application.log`. -/
inductive Event
  /-- An accessor (`Lazy::get`) of a slot is called. -/
  | get (c : Caller) (s : Slot)
  /-- The factory of a slot is invoked. -/
  | factory (s : Slot)
  /-- A QObject is allocated (`new X(app)`). -/
  | new (o : ObjId)
  /-- New QThread is allocated (`new QThread(this)`). -/
  | newThread (t : ThreadId)
  /-- The call `object->setParent(nullptr)`. -/
  | setParent (o : ObjId)
  /-- The call `object->moveToThread(thread)`. -/
  | moveToThread (o : ObjId) (t : ThreadId)
  /-- The call `thread->start()`. -/
  | threadStart (t : ThreadId)
  /-- The call `client->Start()` of the tag reader client. -/
  | Start (o : ObjId)
  /-- The call `DoInAMinuteOrSo(db, SLOT(DoBackup()))`. -/
  | DoInAMinuteOrSo (o : ObjId)
  /-- The call `cover_providers->AddProvider(provider)`. -/
  | AddProvider (cp : ObjId) (provider : ObjId)
  /-- The call `Init()` on the instance of a slot. -/
  | Init (s : Slot) (o : ObjId)
  /-- The factory result is stored in the slot. -/
  | stored (s : Slot) (o : ObjId)
  /-- An instance is destroyed. -/
  | destroyed (o : ObjId)
  /-- The call `thread->quit()`. -/
  | quit (t : ThreadId)
  /-- The call `thread->wait()`. -/
  | wait (t : ThreadId)
  deriving DecidableEq, Repr

/-- What the code outside application.cpp does with the `Application` it is
given: the accessor calls, in order, made by each constructor and by `Init()`,
and the compile-time switch `HAVE_LIBLASTFM`. -/
structure Env where
  /-- The preprocessor switch `HAVE_LIBLASTFM` of config.h. -/
  HAVE_LIBLASTFM : Bool
  /-- Accessors called by the constructor of the class of a slot. -/
  ctor : Slot → List Slot
  /-- Accessors called by the constructor of a cover provider. -/
  providerCtor : Provider → List Slot
  /-- Accessors called by `Init()` of the instance of a slot. -/
  init : Slot → List Slot

/-- State of an `Application` object together with the QObjects and QThreads
it has created. -/
structure Application where
  /-- The members of `p_`: the pointer held by each `Lazy<>`, empty until first use. -/
  p_ : Slot → Option ObjId
  /-- The member `threads_`. -/
  threads_ : List ThreadId
  /-- Number of QObjects allocated so far. -/
  objects : Nat
  /-- Number of QThreads allocated so far. -/
  qthreads : Nat
  /-- The thread affinity of each object, `QObject::thread()`. -/
  thread : ObjId → ThreadId
  /-- Whether the object still has its parent. -/
  parented : ObjId → Bool
  /-- Whether a thread has been started and not yet waited for. -/
  running : ThreadId → Bool
  /-- The trace of actions so far, oldest first. -/
  log : List Event

/-- Appends an action to the trace. -/
def Application.emit (e : Event) (a : Application) : Application :=
  { a with log := a.log ++ [e] }

/-- State after `p_(new ApplicationImpl(this))`: every `Lazy<>` holds its
factory and no instance. -/
def Application.init : Application :=
  { p_ := fun _ => none, threads_ := [], objects := 0, qthreads := 0,
    thread := fun _ => 0, parented := fun _ => true, running := fun _ => false, log := [] }

/-- Application::MoveToThread (application.cpp, lines 147-150). -/
def Application.MoveToThread (object : ObjId) (thread : ThreadId) (a : Application) :
    Application :=
  let a := { a with parented := Function.update a.parented object false }.emit (.setParent object)
  { a with thread := Function.update a.thread object thread }.emit (.moveToThread object thread)

/-- Application::MoveToNewThread (application.cpp, lines 137-145). -/
def Application.MoveToNewThread (object : ObjId) (a : Application) : Application :=
  let thread : ThreadId := a.qthreads + 1
  let a := { a with qthreads := a.qthreads + 1 }.emit (.newThread thread)
  let a := a.MoveToThread object thread
  let a := { a with running := Function.update a.running thread true }.emit (.threadStart thread)
  { a with threads_ := a.threads_ ++ [thread] }

/-- The type of the accessor handed to the code that runs inside a factory. -/
abbrev Getter := Caller → Slot → Application → Option (ObjId × Application)

/-- Runs the accessor calls `l` made by caller `c`, in order. -/
def accessAll (g : Getter) (c : Caller) : List Slot → Application → Option Application
  | [], a => some a
  | s :: rest, a =>
    match g c s a with
    | none => none
    | some (_, a1) => accessAll g c rest a1

/-- Allocation of the next QObject. -/
def alloc (a : Application) : Application :=
  { a with objects := a.objects + 1 }.emit (.new a.objects)

/-- The expression `new X(app)`: allocates the object, then runs the accessor
calls `l` of its constructor. -/
def construct (g : Getter) (c : Caller) (l : List Slot) (a : Application) :
    Option (ObjId × Application) :=
  let o : ObjId := a.objects
  match accessAll g c l (alloc a) with
  | none => none
  | some a1 => some (o, a1)

/-- The statement `cover_providers->AddProvider(new P(app))`. -/
def addProvider (env : Env) (g : Getter) (cp : ObjId) (p : Provider) (a : Application) :
    Option Application :=
  match construct g (.providerCtor p) (env.providerCtor p) a with
  | none => none
  | some (o, a1) => some (a1.emit (.AddProvider cp o))

/-- The providers added by the factory of `cover_providers_`, in order
(application.cpp, lines 80-85). -/
def providers (env : Env) : List Provider :=
  (if env.HAVE_LIBLASTFM then [Provider.LastFm] else []) ++
    [Provider.Amazon, Provider.Discogs, Provider.Musicbrainz]

/-- Runs `addProvider` for each provider of the list. -/
def addProviders (env : Env) (g : Getter) (cp : ObjId) : List Provider → Application →
    Option Application
  | [], a => some a
  | p :: rest, a =>
    match addProvider env g cp p a with
    | none => none
    | some a1 => addProviders env g cp rest a1

/-- The statements of a factory lambda that follow `new X(app)`
(application.cpp, lines 53-93); `o` is the object just constructed. -/
def wire (env : Env) (g : Getter) : Slot → ObjId → Application → Option Application
  | .tag_reader_client, o, a => some ((a.MoveToNewThread o).emit (.Start o))
  | .database, o, a => some ((a.MoveToNewThread o).emit (.DoInAMinuteOrSo o))
  | .album_cover_loader, o, a => some (a.MoveToNewThread o)
  | .playlist_backend, o, a =>
    match g (.factory .playlist_backend) .database a with
    | none => none
    | some (db, a1) => some (a1.MoveToThread o (a1.thread db))
  | .cover_providers, o, a => addProviders env g o (providers env) a
  | _, _, a => some a

/-- The factory lambda of slot `s` (application.cpp, lines 53-93): constructs
the object, then runs the remaining statements and returns the object. -/
def factory (env : Env) (g : Getter) (s : Slot) (a : Application) :
    Option (ObjId × Application) :=
  match construct g (.ctorOf s) (env.ctor s) a with
  | none => none
  | some (o, a1) =>
    match wire env g s o a1 with
    | none => none
    | some a2 => some (o, a2)

/-- Stores the result of a factory in its slot. -/
def Application.store (s : Slot) (o : ObjId) (a : Application) : Application :=
  { a with p_ := Function.update a.p_ s (some o) }.emit (.stored s o)

/-- Modelled from the spec: `Lazy<T>::get` of core/lazy.h, which is not among
the sources.  If the instance is empty the factory is invoked and its result
stored; if it is populated the cached instance is returned.  `fuel` bounds the
depth of nested factory invocations; `none` stands for a call that does not
return. -/
def get (env : Env) : Nat → Getter
  | 0, c, s, a =>
    match a.p_ s with
    | some o => some (o, a.emit (.get c s))
    | none => none
  | fuel + 1, c, s, a =>
    match a.p_ s with
    | some o => some (o, a.emit (.get c s))
    | none =>
      match factory env (get env fuel) s ((a.emit (.get c s)).emit (.factory s)) with
      | none => none
      | some (o, a1) => some (o, a1.store s o)

/-- Modelled from the spec: `Lazy<T>::reset` of core/lazy.h, which destroys the
instance of the slot if it is materialised. -/
def Application.reset (s : Slot) (a : Application) : Application :=
  match a.p_ s with
  | none => a
  | some o => { a with p_ := Function.update a.p_ s none }.emit (.destroyed o)

/-- The call `x()->Init()` in `Application::Application`. -/
def callInit (env : Env) (fuel : Nat) (s : Slot) (a : Application) : Option Application :=
  match get env fuel .application s a with
  | none => none
  | some (o, a1) => accessAll (get env fuel) (.initOf s) (env.init s) (a1.emit (.Init s o))

/-- Application::Application (application.cpp, lines 112-119). -/
def Application.ctor (env : Env) (fuel : Nat) : Option Application :=
  match callInit env fuel .enginedevice Application.init with
  | none => none
  | some a1 =>
    match callInit env fuel .collection a1 with
    | none => none
    | some a2 =>
      match get env fuel .application .tag_reader_client a2 with
      | none => none
      | some (_, a3) => some a3

/-- The first loop of `Application::~Application`. -/
def quitAll : List ThreadId → Application → Application
  | [], a => a
  | t :: rest, a => quitAll rest (a.emit (.quit t))

/-- The second loop of `Application::~Application`. -/
def waitAll : List ThreadId → Application → Application
  | [], a => a
  | t :: rest, a =>
    waitAll rest ({ a with running := Function.update a.running t false }.emit (.wait t))

/-- The body of `Application::~Application` (application.cpp, lines 121-135). -/
def Application.dtorBody (a : Application) : Application :=
  let a1 := a.reset .device_manager
  let a2 := quitAll a1.threads_ a1
  waitAll a2.threads_ a2

/-- Resets the slots of the list in order. -/
def resetAll : List Slot → Application → Application
  | [], a => a
  | s :: rest, a => resetAll rest (a.reset s)

/-- Modelled from the spec: the destruction of `p_` after the destructor body;
the header application.h that declares `p_` is not among the sources.  The
remaining slots are destroyed in reverse declaration order. -/
def Application.unwind (a : Application) : Application :=
  resetAll Slot.all.reverse a

/-- Destruction of an `Application`: the destructor body, then the members. -/
def Application.destroy (a : Application) : Application :=
  a.dtorBody.unwind

/-- Slots whose factory calls `MoveToNewThread`. -/
def Slot.ownsThread : Slot → Bool
  | .tag_reader_client => true
  | .database => true
  | .album_cover_loader => true
  | _ => false

/-- All the accessors called while the factory of a slot runs. -/
def deps (env : Env) : Slot → List Slot
  | .playlist_backend => env.ctor .playlist_backend ++ [.database]
  | .cover_providers =>
    env.ctor .cover_providers ++ (providers env).flatMap env.providerCtor
  | s => env.ctor s

/-- The rank `r` witnesses that construction is not circular: every accessor
called inside a factory is of a slot of smaller rank. -/
def Ranked (env : Env) (r : Slot → Nat) : Prop :=
  ∀ s, ∀ t ∈ deps env s, r t < r s

instance (env : Env) (r : Slot → Nat) : Decidable (Ranked env r) := by
  unfold Ranked; infer_instance

/-- States of a live `Application`: the result of the constructor, then any
accessor calls by clients.  (In the sources `MoveToNewThread` and
`MoveToThread` are called by the factories only.) -/
inductive Reachable (env : Env) : Application → Prop
  | ctor (fuel : Nat) (a : Application) : Application.ctor env fuel = some a → Reachable env a
  | call (fuel : Nat) (s : Slot) (a : Application) (o : ObjId) (a1 : Application) :
      Reachable env a → get env fuel .client s a = some (o, a1) → Reachable env a1

/-! ## The geometry of `PlayingWidget` -/

/-- The display modes of the widget (enum `PlayingWidget::Mode`). -/
inductive Mode
  | SmallSongDetails
  | LargeSongDetails
  deriving DecidableEq, Repr

/-- PlayingWidget::kMaxCoverSize (playingwidget.cpp, line 64). -/
def kMaxCoverSize : Int := 260

/-- PlayingWidget::kBottomOffset (playingwidget.cpp, line 65). -/
def kBottomOffset : Int := 0

/-- PlayingWidget::kTopBorder (playingwidget.cpp, line 68). -/
def kTopBorder : Int := 4

/-- The members of `PlayingWidget` that decide its size, with the values the
toolkit reports: the width of the widget, the height of the text document and
whether the show/hide timeline is running. -/
structure PlayingWidget where
  mode_ : Mode
  enabled_ : Bool
  visible_ : Bool
  playing_ : Bool
  active_ : Bool
  small_ideal_height_ : Int
  fit_width_ : Bool
  total_height_ : Int
  /-- The member `cover_loader_options_.desired_height_`. -/
  desired_height_ : Int
  /-- The value of `width()`. -/
  width : Int
  /-- The value of `details_->size().height()`. -/
  details_height : Int
  /-- The value last given to `setMaximumHeight`. -/
  maximumHeight : Int
  /-- Whether `timeline_show_hide_->state()` is `QTimeLine::Running`. -/
  timeline_running : Bool

/-- PlayingWidget::UpdateHeight (playingwidget.cpp, lines 341-367), on the
members above. -/
def PlayingWidget.UpdateHeight (w : PlayingWidget) : PlayingWidget :=
  let w1 : PlayingWidget :=
    match w.mode_ with
    | .SmallSongDetails =>
      { w with desired_height_ := w.small_ideal_height_, total_height_ := w.small_ideal_height_ }
    | .LargeSongDetails =>
      let desired : Int := if w.fit_width_ then w.width else min kMaxCoverSize w.width
      { w with desired_height_ := desired,
               total_height_ := kTopBorder + desired + kBottomOffset + w.details_height }
  if w1.visible_ && w1.active_ && !w1.timeline_running then
    { w1 with maximumHeight := w1.total_height_ }
  else w1

/-- The local `cover_size` of PlayingWidget::DrawContents in large mode
(playingwidget.cpp, line 426). -/
def PlayingWidget.cover_size (w : PlayingWidget) : Int :=
  if w.fit_width_ then w.width else min kMaxCoverSize w.width

/-- A widget in large mode, 300 wide, with "fit cover to width" switched on. -/
def wideFit : PlayingWidget :=
  { mode_ := .LargeSongDetails, enabled_ := false, visible_ := false, playing_ := false,
    active_ := false, small_ideal_height_ := 0, fit_width_ := true, total_height_ := 0,
    desired_height_ := 0, width := 300, details_height := 40, maximumHeight := 0,
    timeline_running := false }

/-- A widget in large mode, 300 wide, with "fit cover to width" switched off. -/
def wideNoFit : PlayingWidget := { wideFit with fit_width_ := false }

/-! ## The state machine of `PlayingWidget` -/

/-- The accessors of `Song` (core/song.h) that the widget reads. -/
structure Song where
  id : Int
  url : String
  effective_albumartist : String
  effective_album : String
  title : String
  is_valid : Bool
  has_manually_unset_cover : Bool
  art_automatic : String
  art_manual : String
  deriving DecidableEq, Repr

/-- QImage, up to equality of images; 0 is the null image. -/
abbrev QImage := Nat

/-- The enum `QTimeLine::Direction`. -/
inductive Direction
  | Forward
  | Backward
  deriving DecidableEq, Repr

/-- QTimeLine::toggleDirection. -/
def Direction.toggle : Direction → Direction
  | .Forward => .Backward
  | .Backward => .Forward

/-- What the toolkit answers during one call of a slot of the widget. -/
structure Toolkit where
  /-- The value of `details_->size().height()` once `setHtml` has laid the text out. -/
  text_height : Int
  /-- The value of `search_cover_auto_action()->isChecked()`. -/
  search_cover_auto : Bool

/-- The members of `PlayingWidget` that its slots read and write, together
with the state of its two timelines and its size.  (The opacity of the
previous pixmap, a floating-point number, and the pixels of the pixmaps are
left out.) -/
structure Widget extends PlayingWidget where
  /-- The value of `size().height()`. -/
  height : Int
  /-- The value of `timeline_show_hide_->direction()`. -/
  show_hide_direction : Direction
  /-- The end of the frame range of `timeline_show_hide_`. -/
  show_hide_end : Int
  /-- Whether `timeline_fade_->state()` is `QTimeLine::Running`. -/
  fade_running : Bool
  /-- Whether `pixmap_previous_track_` is not null. -/
  previous_track : Bool
  downloading_covers_ : Bool
  /-- Whether `spinner_animation_` holds a movie. -/
  spinner_animation_ : Bool
  song_playing_ : Song
  song_ : Song
  song_empty_ : Song
  image_original_ : QImage

/-- The two tests on the running show/hide timeline that `SetVisible` and
`SetHeight` share (playingwidget.cpp, lines 173-178 and 331-336). -/
def Widget.adjustDirection (w : Widget) : Widget :=
  let w1 : Widget :=
    if w.show_hide_direction = .Backward ∧ w.enabled_ = true ∧ w.active_ = true then
      { w with show_hide_direction := w.show_hide_direction.toggle }
    else w
  if w1.show_hide_direction = .Forward ∧ (w1.enabled_ = false ∨ w1.active_ = false) then
    { w1 with show_hide_direction := w1.show_hide_direction.toggle }
  else w1

/-- PlayingWidget::SetVisible (playingwidget.cpp, lines 170-188). -/
def Widget.SetVisible (visible : Bool) (w : Widget) : Widget :=
  if w.timeline_running then w.adjustDirection
  else if visible = w.visible_ then w
  else
    { w with show_hide_end := w.total_height_,
             show_hide_direction := if visible then .Forward else .Backward,
             timeline_running := true }

/-- PlayingWidget::SetHeight (playingwidget.cpp, lines 322-339). -/
def Widget.SetHeight (height : Int) (w : Widget) : Widget :=
  let w1 : Widget := { w with maximumHeight := height }
  let w2 : Widget := if height ≥ w1.total_height_ then { w1 with visible_ := true } else w1
  let w3 : Widget := if height ≤ 0 then { w2 with visible_ := false } else w2
  if w3.timeline_running then w3.adjustDirection else w3

/-- PlayingWidget::UpdateHeight (playingwidget.cpp, lines 341-367) on all the
members: the sizes as in `PlayingWidget.UpdateHeight`, and the frame range of
the show/hide timeline. -/
def Widget.UpdateHeight (w : Widget) : Widget :=
  let g : PlayingWidget := w.toPlayingWidget.UpdateHeight
  { w with toPlayingWidget := g, show_hide_end := g.total_height_ }

/-- PlayingWidget::UpdateDetailsText (playingwidget.cpp, lines 369-392). -/
def Widget.UpdateDetailsText (tk : Toolkit) (w : Widget) : Widget :=
  let w1 : Widget := { w with details_height := tk.text_height }
  match w1.mode_ with
  | .LargeSongDetails => w1.UpdateHeight
  | .SmallSongDetails => w1

/-- PlayingWidget::SetImage (playingwidget.cpp, lines 287-315).  A pixmap of
size `psize` is not null when both sides are positive. -/
def Widget.SetImage (image : QImage) (tk : Toolkit) (w : Widget) : Widget :=
  let w1 : Widget :=
    if w.enabled_ && w.visible_ && w.active_ then
      let psize_height : Int := if w.height ≤ 0 then w.total_height_ else w.height
      { w with previous_track := decide (0 < w.width ∧ 0 < psize_height) }
    else { w with previous_track := false }
  let w2 : Widget := { w1 with image_original_ := image }
  let w3 : Widget := w2.UpdateDetailsText tk
  if w3.enabled_ && w3.active_ then
    let w4 : Widget := w3.SetVisible true
    if w4.previous_track then { w4 with fade_running := true } else w4
  else w3

/-- PlayingWidget::GetCoverAutomatically (playingwidget.cpp, lines 499-522). -/
def Widget.GetCoverAutomatically (tk : Toolkit) (w : Widget) : Widget :=
  let search : Bool :=
    tk.search_cover_auto && !w.song_.has_manually_unset_cover &&
      w.song_.art_automatic.isEmpty && w.song_.art_manual.isEmpty &&
      !w.song_.effective_albumartist.isEmpty && !w.song_.effective_album.isEmpty
  if search then { w with downloading_covers_ := true, spinner_animation_ := true } else w

/-- PlayingWidget::Playing (playingwidget.cpp, lines 253-254). -/
def Widget.Playing (w : Widget) : Widget := w

/-- PlayingWidget::Stopped (playingwidget.cpp, lines 256-262). -/
def Widget.Stopped (w : Widget) : Widget :=
  let w1 : Widget :=
    { w with playing_ := false, active_ := false, song_playing_ := w.song_empty_,
             song_ := w.song_empty_ }
  w1.SetVisible false

/-- PlayingWidget::Error (playingwidget.cpp, lines 264-266). -/
def Widget.Error (w : Widget) : Widget := { w with active_ := false }

/-- PlayingWidget::SongChanged (playingwidget.cpp, lines 268-272). -/
def Widget.SongChanged (song : Song) (w : Widget) : Widget :=
  { w with playing_ := true, song_playing_ := song, song_ := song }

/-- PlayingWidget::AlbumArtLoaded (playingwidget.cpp, lines 274-285). -/
def Widget.AlbumArtLoaded (song : Song) (image : QImage) (tk : Toolkit) (w : Widget) :
    Widget :=
  if !w.playing_ || song.id != w.song_playing_.id || song.url != w.song_playing_.url ||
      song.effective_albumartist != w.song_playing_.effective_albumartist ||
      song.effective_album != w.song_playing_.effective_album ||
      song.title != w.song_playing_.title then w
  else if w.fade_running && image == w.image_original_ then w
  else
    let w1 : Widget := { w with active_ := true, downloading_covers_ := false, song_ := song }
    (w1.SetImage image tk).GetCoverAutomatically tk

/-- PlayingWidget::SetEnabled (playingwidget.cpp, lines 160-163). -/
def Widget.SetEnabled (w : Widget) : Widget :=
  let w1 : Widget := { w with enabled_ := true }
  if !w1.visible_ && w1.active_ then w1.SetVisible true else w1

/-- PlayingWidget::SetDisabled (playingwidget.cpp, lines 165-168). -/
def Widget.SetDisabled (w : Widget) : Widget :=
  let w1 : Widget := { w with enabled_ := false }
  if w1.visible_ then w1.SetVisible false else w1

/-- PlayingWidget::set_ideal_height (playingwidget.cpp, lines 190-195). -/
def Widget.set_ideal_height (height : Int) (w : Widget) : Widget :=
  ({ w with small_ideal_height_ := height } : Widget).UpdateHeight

/-- PlayingWidget::SetMode (playingwidget.cpp, lines 212-232). -/
def Widget.SetMode (mode : Mode) (tk : Toolkit) (w : Widget) : Widget :=
  (({ w with mode_ := mode } : Widget).UpdateHeight).UpdateDetailsText tk

/-- PlayingWidget::FitCoverWidth (playingwidget.cpp, lines 234-243). -/
def Widget.FitCoverWidth (fit : Bool) (w : Widget) : Widget :=
  ({ w with fit_width_ := fit } : Widget).UpdateHeight

/-- PlayingWidget::FadePreviousTrack (playingwidget.cpp, lines 445-456);
`fuzzyZero` is the value of `qFuzzyCompare` on the new opacity and 0. -/
def Widget.FadePreviousTrack (fuzzyZero : Bool) (w : Widget) : Widget :=
  if !w.visible_ then w
  else if fuzzyZero then { w with previous_track := false } else w

/-- PlayingWidget::resizeEvent (playingwidget.cpp, lines 458-468), for a
resize to a different size `width` x `height`. -/
def Widget.resizeEvent (width height : Int) (tk : Toolkit) (w : Widget) : Widget :=
  let w1 : Widget := { w with width := width, height := height }
  match w1.mode_ with
  | .LargeSongDetails => (w1.UpdateHeight).UpdateDetailsText tk
  | .SmallSongDetails => w1

/-- PlayingWidget::AutomaticCoverSearchDone (playingwidget.cpp, lines 524-530). -/
def Widget.AutomaticCoverSearchDone (w : Widget) : Widget :=
  { w with downloading_covers_ := false, spinner_animation_ := false }

/-- PlayingWidget::SearchCoverAutomatically (playingwidget.cpp, lines 532-534). -/
def Widget.SearchCoverAutomatically (tk : Toolkit) (w : Widget) : Widget :=
  w.GetCoverAutomatically tk

/-- PlayingWidget::PlayingWidget (playingwidget.cpp, lines 70-130).  `mode` and
`fit_width` are the stored settings; `width`, `height` and `details0` are the
size of the new widget and the height of its empty text document;
`total0` and `desired0` are the values that `total_height_` and
`cover_loader_options_.desired_height_` have before the first `UpdateHeight`;
`song0` is the default-constructed `Song`. -/
def Widget.ctor (mode : Mode) (fit_width : Bool) (width height details0 total0 desired0 : Int)
    (tk : Toolkit) (song0 : Song) : Widget :=
  let w0 : Widget :=
    { mode_ := .LargeSongDetails, enabled_ := false, visible_ := false, playing_ := false,
      active_ := false, small_ideal_height_ := 0, fit_width_ := false,
      total_height_ := total0, desired_height_ := desired0, width := width,
      details_height := details0, maximumHeight := height, timeline_running := false,
      height := height, show_hide_direction := .Forward, show_hide_end := 0,
      fade_running := false, previous_track := false, downloading_covers_ := false,
      spinner_animation_ := false, song_playing_ := song0, song_ := song0,
      song_empty_ := song0, image_original_ := 0 }
  let w1 : Widget := w0.SetHeight 0
  let w2 : Widget := { w1 with mode_ := mode, fit_width_ := fit_width }
  -- `setChecked(fit_width_)` emits `toggled(true)`, connected to `FitCoverWidth`
  let w3 : Widget := if fit_width then w2.FitCoverWidth true else w2
  let w4 : Widget :=
    match w3.mode_ with
    | .LargeSongDetails => { w3 with details_height := tk.text_height }
    | .SmallSongDetails => w3
  w4.UpdateHeight

/-- The widget `v` has the same `active_` and `playing_` as `w`. -/
def Widget.SameFlags (w v : Widget) : Prop :=
  v.active_ = w.active_ ∧ v.playing_ = w.playing_

/-- The calls that the widget receives: the seven slots driven by the player
and the application, then its other slots and event handlers, and the end of
a timeline. -/
inductive Op
  | Playing
  | Stopped
  | Error
  | SongChanged (song : Song)
  | AlbumArtLoaded (song : Song) (image : QImage) (tk : Toolkit)
  | SetEnabled
  | SetDisabled
  | SetHeight (height : Int)
  | set_ideal_height (height : Int)
  | SetMode (mode : Mode) (tk : Toolkit)
  | FitCoverWidth (fit : Bool)
  | FadePreviousTrack (fuzzyZero : Bool)
  | resizeEvent (width height : Int) (tk : Toolkit)
  | AutomaticCoverSearchDone
  | SearchCoverAutomatically (tk : Toolkit)
  /-- The show/hide timeline reaches its end. -/
  | showHideFinished
  /-- The fade timeline reaches its end. -/
  | fadeFinished

/-- The effect of one call on the widget. -/
def Widget.step (w : Widget) : Op → Widget
  | .Playing => w.Playing
  | .Stopped => w.Stopped
  | .Error => w.Error
  | .SongChanged song => w.SongChanged song
  | .AlbumArtLoaded song image tk => w.AlbumArtLoaded song image tk
  | .SetEnabled => w.SetEnabled
  | .SetDisabled => w.SetDisabled
  | .SetHeight height => w.SetHeight height
  | .set_ideal_height height => w.set_ideal_height height
  | .SetMode mode tk => w.SetMode mode tk
  | .FitCoverWidth fit => w.FitCoverWidth fit
  | .FadePreviousTrack fuzzyZero => w.FadePreviousTrack fuzzyZero
  | .resizeEvent width height tk => w.resizeEvent width height tk
  | .AutomaticCoverSearchDone => w.AutomaticCoverSearchDone
  | .SearchCoverAutomatically tk => w.SearchCoverAutomatically tk
  | .showHideFinished => { w with timeline_running := false }
  | .fadeFinished => { w with fade_running := false }

/-- The widget after the calls `ops`, the first of the list first. -/
def Widget.run (w : Widget) (ops : List Op) : Widget :=
  ops.foldl Widget.step w

/-- A song with an id, an artist, an album and a title, and no cover. -/
def song1 : Song :=
  { id := 1, url := "file:///music/a.flac", effective_albumartist := "Artist",
    effective_album := "Album", title := "Title", is_valid := true,
    has_manually_unset_cover := false, art_automatic := "", art_manual := "" }

/-- The default-constructed song. -/
def songNone : Song :=
  { id := -1, url := "", effective_albumartist := "", effective_album := "", title := "",
    is_valid := false, has_manually_unset_cover := false, art_automatic := "",
    art_manual := "" }

/-- Answers of the toolkit for a text 40 high, automatic cover search on. -/
def tk1 : Toolkit := { text_height := 40, search_cover_auto := true }

/-- A new widget in large mode, 300 wide. -/
def widget0 : Widget := Widget.ctor .LargeSongDetails false 300 0 0 0 120 tk1 songNone

/-! ## Invariants of the object graph -/

/-- The worker threads created so far, in creation order, read off the trace. -/
def createdThreads : List Event → List ThreadId
  | [] => []
  | .newThread t :: rest => t :: createdThreads rest
  | _ :: rest => createdThreads rest

/-- Every invocation of a factory directly follows a call of the accessor of
the same slot. -/
def FactoryAfterGet (l : List Event) : Prop :=
  ∀ i u, l[i]? = some (.factory u) → ∃ c, 1 ≤ i ∧ l[i - 1]? = some (.get c u)

/-- Every relocation targets a thread that was started before, or that is
started by the very next action. -/
def MovesOK (l : List Event) : Prop :=
  ∀ i o t, l[i]? = some (.moveToThread o t) →
    .threadStart t ∈ l.take i ∨ l[i + 1]? = some (.threadStart t)

/-- Every relocation of object `b` targets a thread that was started before. -/
def MovedToStarted (l : List Event) (b : ObjId) : Prop :=
  ∀ i t, l[i]? = some (.moveToThread b t) → .threadStart t ∈ l.take i

/-- Every relocation of object `o` targets a thread that has not been started
before and that is started by the very next action. -/
def MovedThenStarted (l : List Event) (o : ObjId) : Prop :=
  ∀ i t, l[i]? = some (.moveToThread o t) →
    .threadStart t ∉ l.take i ∧ l[i + 1]? = some (.threadStart t)

/-- Slots whose factory calls `MoveToNewThread`, in declaration order. -/
def threadSlots : List Slot := [.tag_reader_client, .database, .album_cover_loader]

/-- Actions of the teardown. -/
def Event.isTeardown : Event → Bool
  | .destroyed _ => true
  | .quit _ => true
  | .wait _ => true
  | _ => false

/-- Actions that can be appended to the trace anywhere. -/
def Event.benign : Event → Bool
  | .get _ _ => true
  | .new _ => true
  | .setParent _ => true
  | .Start _ => true
  | .DoInAMinuteOrSo _ => true
  | .AddProvider _ _ => true
  | .Init _ _ => true
  | .stored _ _ => true
  | _ => false

/-- The invariant of a live `Application` that holds between any two
statements of the model. -/
structure Inv (a : Application) : Prop where
  /-- The instances held by the slots have been allocated. -/
  objs : ∀ s (o : Nat), a.p_ s = some o → o < a.objects
  /-- The worker threads are numbered from 1 in the order of `threads_`. -/
  thr_ids : a.threads_ = List.range' 1 a.qthreads
  /-- The member `threads_` lists the threads created so far, in creation order. -/
  created : createdThreads a.log = a.threads_
  /-- Every thread of `threads_` is running. -/
  running : ∀ t ∈ a.threads_, a.running t = true
  /-- Every thread of `threads_` has been started. -/
  started : ∀ t ∈ a.threads_, Event.threadStart t ∈ a.log
  /-- The instances made by a factory that calls `MoveToNewThread` live on a
  thread of `threads_`. -/
  affinity : ∀ s o, s.ownsThread = true → a.p_ s = some o → a.thread o ∈ a.threads_
  /-- The playlist backend lives on the thread of the database. -/
  pb : ∀ b, a.p_ .playlist_backend = some b →
    ∃ d, a.p_ .database = some d ∧ a.thread b = a.thread d
  /-- Only allocated objects have been relocated. -/
  moved : ∀ (o : Nat) t, Event.moveToThread o t ∈ a.log → o < a.objects
  fag : FactoryAfterGet a.log
  moves : MovesOK a.log
  /-- The playlist backend was moved to its thread, which had been started. -/
  pbMove : ∀ b, a.p_ .playlist_backend = some b →
    MovedToStarted a.log b ∧ Event.moveToThread b (a.thread b) ∈ a.log
  /-- The instances made by a factory that calls `MoveToNewThread` were moved
  to their thread, which was started right after. -/
  relocated : ∀ s o, s.ownsThread = true → a.p_ s = some o →
    MovedThenStarted a.log o ∧ Event.moveToThread o (a.thread o) ∈ a.log
  /-- Distinct slots hold distinct instances. -/
  inj : ∀ s1 s2 o, a.p_ s1 = some o → a.p_ s2 = some o → s1 = s2
  /-- The instance held by a slot was stored by its factory call. -/
  storedLog : ∀ s o, a.p_ s = some o → Event.stored s o ∈ a.log
  /-- Only allocated threads have been started. -/
  startedIds : ∀ t : Nat, Event.threadStart t ∈ a.log → t ≤ a.qthreads
  /-- No teardown action has happened. -/
  live : ∀ e ∈ a.log, e.isTeardown = false

/-- Every worker thread is the thread of the instance of a slot whose factory
calls `MoveToNewThread`, and there are as many worker threads as such slots
are materialised. -/
def Owner (a : Application) : Prop :=
  (∀ t ∈ a.threads_, ∃ s o, s.ownsThread = true ∧ a.p_ s = some o ∧ a.thread o = t) ∧
    a.threads_.length = (threadSlots.filter (fun s => (a.p_ s).isSome)).length

/-- The factory of slot `u` has run once if the slot is materialised, and
never otherwise. -/
def Good (a : Application) (u : Slot) : Prop :=
  a.log.count (.factory u) = if (a.p_ u).isSome then 1 else 0

/-- The slots of rank below `K` are `Good`. -/
def GoodBelow (r : Slot → Nat) (K : Nat) (a : Application) : Prop :=
  ∀ u, r u < K → Good a u

/-- Object `o` is held by no slot and has not been relocated. -/
def Fresh (o : ObjId) (a : Application) : Prop :=
  (∀ u, a.p_ u ≠ some o) ∧ ∀ t, Event.moveToThread o t ∉ a.log

/-- What must hold of the object `o` for it to be stored in slot `s`. -/
structure Ready (s : Slot) (o : ObjId) (a : Application) : Prop where
  lt : (o : Nat) < a.objects
  notStored : ∀ u, a.p_ u ≠ some o
  owns : s.ownsThread = true → a.thread o ∈ a.threads_ ∧ MovedThenStarted a.log o ∧
    Event.moveToThread o (a.thread o) ∈ a.log
  pb : s = .playlist_backend →
    (∃ d, a.p_ .database = some d ∧ a.thread o = a.thread d) ∧ MovedToStarted a.log o ∧
      Event.moveToThread o (a.thread o) ∈ a.log

/-- Actions that a nested accessor call may append to the trace: they concern
slots of rank below `K` and objects numbered from `n`, are not made by the body
of the constructor, and are no `Init()` or teardown. -/
def EvOK (r : Slot → Nat) (K n : Nat) : Event → Prop
  | .get c u => c ≠ .application ∧ r u < K
  | .factory u => r u < K
  | .stored u o => r u < K ∧ n ≤ o
  | .new o => n ≤ o
  | .moveToThread o _ => n ≤ o
  | .Init _ _ => False
  | .destroyed _ => False
  | .quit _ => False
  | .wait _ => False
  | _ => True

/-- The state `a1` comes from `a` through statements that touch only slots of
rank below `K` and objects numbered from `n`. -/
structure Step (r : Slot → Nat) (K n : Nat) (a a1 : Application) : Prop where
  p_frame : ∀ u, K ≤ r u → a1.p_ u = a.p_ u
  p_mono : ∀ u x, a.p_ u = some x → a1.p_ u = some x
  p_new : ∀ u (x : Nat), a1.p_ u = some x → a.p_ u = some x ∨ n ≤ x
  objs : a.objects ≤ a1.objects
  thr : ∃ ts, a1.threads_ = a.threads_ ++ ts
  thread_frame : ∀ x : Nat, x < n → a1.thread x = a.thread x
  tr : ∃ l, a1.log = a.log ++ l ∧ ∀ e ∈ l, EvOK r K n e

/-- What a returning accessor call guarantees. -/
structure Post (r : Slot → Nat) (c : Caller) (s : Slot) (a : Application) (o : ObjId)
    (a1 : Application) : Prop where
  inv : Inv a1
  owner : Owner a1
  stored : a1.p_ s = some o
  good : ∀ u, Good a u → Good a1 u
  step : Step r (r s + 1) a.objects (a.emit (.get c s)) a1

/-- What a returning sequence of nested accessor calls guarantees. -/
structure SeqPost (r : Slot → Nat) (K : Nat) (a a1 : Application) : Prop where
  inv : Inv a1
  owner : Owner a1
  good : ∀ u, Good a u → Good a1 u
  step : Step r K a.objects a a1

/-- The accessors called by the body of the constructor are those of the three
eager slots only. -/
def AppCalls (a : Application) : Prop :=
  ∀ u, Event.get .application u ∈ a.log →
    u = .enginedevice ∨ u = .collection ∨ u = .tag_reader_client

/-- The invariant of the states between two calls on a live `Application`. -/
structure Live (a : Application) : Prop where
  inv : Inv a
  owner : Owner a
  good : ∀ u, Good a u
  appCalls : AppCalls a

/-- Precondition on the accessor handed to a factory: calls of slots of rank
below `K` return and satisfy `Post`. -/
def GetterOK (r : Slot → Nat) (K : Nat) (g : Getter) : Prop :=
  ∀ c t a, r t < K → Inv a → Owner a → GoodBelow r (r t) a →
    ∃ o a1, g c t a = some (o, a1) ∧ Post r c t a o a1

/-! ## Client code and observations used in the statements -/

/-- Client code that calls the accessor of slot `s` `n` times in a row and
collects the instances returned. -/
def callN (env : Env) (fuel : Nat) (s : Slot) : Nat → Application →
    Option (List ObjId × Application)
  | 0, a => some ([], a)
  | n + 1, a =>
    match get env fuel .client s a with
    | none => none
    | some (o, a1) =>
      match callN env fuel s n a1 with
      | none => none
      | some (os, a2) => some (o :: os, a2)

/-- The calls of `Init()`. -/
def Event.isInit : Event → Bool
  | .Init _ _ => true
  | _ => false

/-- Every relocation targets a thread that was started before. -/
def StartedBeforeMove (l : List Event) : Prop :=
  ∀ i o t, l[i]? = some (.moveToThread o t) → .threadStart t ∈ l.take i

/-- What the destruction of `a` appends to the trace. -/
def teardown (a : Application) : List Event :=
  ((a.p_ .device_manager).map Event.destroyed).toList ++ a.threads_.map Event.quit ++
    a.threads_.map Event.wait ++
    Slot.all.reverse.filterMap
      (fun s => if s = .device_manager then none else (a.p_ s).map Event.destroyed)

/-- An environment in the shape of the real program: the collection opens the
database, its Init() asks for the task manager. -/
def env0 : Env :=
  { HAVE_LIBLASTFM := true
    ctor := fun s => match s with
      | .collection => [.database]
      | .device_manager => [.database, .task_manager]
      | .playlist_manager => [.playlist_backend, .collection]
      | _ => []
    providerCtor := fun _ => []
    init := fun s => match s with
      | .collection => [.task_manager]
      | _ => [] }

/-- A rank for `env0`. -/
def rank0 : Slot → Nat
  | .collection => 1
  | .device_manager => 1
  | .playlist_backend => 1
  | .playlist_manager => 2
  | .tag_reader_client => 3
  | _ => 0

/-- An environment in which the code outside application.cpp calls no accessor. -/
def envNone : Env :=
  { HAVE_LIBLASTFM := false, ctor := fun _ => [], providerCtor := fun _ => [],
    init := fun _ => [] }

/-- The `Application` constructed in `env0`. -/
def app0 : Application := (Application.ctor env0 5).getD Application.init

/-- The `Application` of `env0` after a client asked for the device manager. -/
def app1 : Application :=
  ((get env0 5 .client .device_manager app0).map Prod.snd).getD app0

/-! # Theorems -/

/-! ## Field lemmas for the primitive statements -/

@[simp] theorem emit_p_ (e : Event) (a : Application) : (a.emit e).p_ = a.p_ := rfl
@[simp] theorem emit_threads_ (e : Event) (a : Application) : (a.emit e).threads_ = a.threads_ := rfl
@[simp] theorem emit_objects (e : Event) (a : Application) : (a.emit e).objects = a.objects := rfl
@[simp] theorem emit_qthreads (e : Event) (a : Application) : (a.emit e).qthreads = a.qthreads := rfl
@[simp] theorem emit_thread (e : Event) (a : Application) : (a.emit e).thread = a.thread := rfl
@[simp] theorem emit_running (e : Event) (a : Application) : (a.emit e).running = a.running := rfl
@[simp] theorem emit_log (e : Event) (a : Application) : (a.emit e).log = a.log ++ [e] := rfl

@[simp] theorem mtt_p_ (o : ObjId) (t : ThreadId) (a : Application) :
    (a.MoveToThread o t).p_ = a.p_ := rfl
@[simp] theorem mtt_threads_ (o : ObjId) (t : ThreadId) (a : Application) :
    (a.MoveToThread o t).threads_ = a.threads_ := rfl
@[simp] theorem mtt_objects (o : ObjId) (t : ThreadId) (a : Application) :
    (a.MoveToThread o t).objects = a.objects := rfl
@[simp] theorem mtt_qthreads (o : ObjId) (t : ThreadId) (a : Application) :
    (a.MoveToThread o t).qthreads = a.qthreads := rfl
@[simp] theorem mtt_thread (o : ObjId) (t : ThreadId) (a : Application) :
    (a.MoveToThread o t).thread = Function.update a.thread o t := rfl
@[simp] theorem mtt_running (o : ObjId) (t : ThreadId) (a : Application) :
    (a.MoveToThread o t).running = a.running := rfl
@[simp] theorem mtt_log (o : ObjId) (t : ThreadId) (a : Application) :
    (a.MoveToThread o t).log = a.log ++ [.setParent o, .moveToThread o t] := by
  simp [Application.MoveToThread, Application.emit]

@[simp] theorem mtn_p_ (o : ObjId) (a : Application) : (a.MoveToNewThread o).p_ = a.p_ := rfl
@[simp] theorem mtn_threads_ (o : ObjId) (a : Application) :
    (a.MoveToNewThread o).threads_ = a.threads_ ++ [a.qthreads + 1] := rfl
@[simp] theorem mtn_objects (o : ObjId) (a : Application) :
    (a.MoveToNewThread o).objects = a.objects := rfl
@[simp] theorem mtn_qthreads (o : ObjId) (a : Application) :
    (a.MoveToNewThread o).qthreads = a.qthreads + 1 := rfl
@[simp] theorem mtn_thread (o : ObjId) (a : Application) :
    (a.MoveToNewThread o).thread = Function.update a.thread o (a.qthreads + 1) := rfl
@[simp] theorem mtn_running (o : ObjId) (a : Application) :
    (a.MoveToNewThread o).running = Function.update a.running (a.qthreads + 1) true := rfl
@[simp] theorem mtn_log (o : ObjId) (a : Application) :
    (a.MoveToNewThread o).log = a.log ++ [.newThread (a.qthreads + 1), .setParent o,
      .moveToThread o (a.qthreads + 1), .threadStart (a.qthreads + 1)] := by
  simp [Application.MoveToNewThread, Application.MoveToThread, Application.emit]

@[simp] theorem store_p_ (s : Slot) (o : ObjId) (a : Application) :
    (a.store s o).p_ = Function.update a.p_ s (some o) := rfl
@[simp] theorem store_threads_ (s : Slot) (o : ObjId) (a : Application) :
    (a.store s o).threads_ = a.threads_ := rfl
@[simp] theorem store_objects (s : Slot) (o : ObjId) (a : Application) :
    (a.store s o).objects = a.objects := rfl
@[simp] theorem store_qthreads (s : Slot) (o : ObjId) (a : Application) :
    (a.store s o).qthreads = a.qthreads := rfl
@[simp] theorem store_thread (s : Slot) (o : ObjId) (a : Application) :
    (a.store s o).thread = a.thread := rfl
@[simp] theorem store_running (s : Slot) (o : ObjId) (a : Application) :
    (a.store s o).running = a.running := rfl
@[simp] theorem store_log (s : Slot) (o : ObjId) (a : Application) :
    (a.store s o).log = a.log ++ [.stored s o] := rfl

/-! ## Trace predicates under append -/

theorem createdThreads_append (l1 l2 : List Event) :
    createdThreads (l1 ++ l2) = createdThreads l1 ++ createdThreads l2 := by
  induction l1 with
  | nil => rfl
  | cons e l ih => cases e <;> simp [createdThreads, ih]

theorem getElem?_append_cases {α : Type} (l1 l2 : List α) (i : Nat) (x : α)
    (h : (l1 ++ l2)[i]? = some x) :
    (i < l1.length ∧ l1[i]? = some x) ∨ (l1.length ≤ i ∧ l2[i - l1.length]? = some x) := by
  rcases Nat.lt_or_ge i l1.length with hi | hi
  · left; rw [List.getElem?_append_left hi] at h; exact ⟨hi, h⟩
  · right; rw [List.getElem?_append_right hi] at h; exact ⟨hi, h⟩

theorem fag_append (l1 l2 : List Event) (h1 : FactoryAfterGet l1)
    (h2 : ∀ i u, l2[i]? = some (.factory u) →
      (i = 0 ∧ ∃ c, l1.getLast? = some (.get c u)) ∨ (1 ≤ i ∧ ∃ c, l2[i - 1]? = some (.get c u))) :
    FactoryAfterGet (l1 ++ l2) := by
  intro i u h
  rcases getElem?_append_cases l1 l2 i _ h with ⟨hi, h⟩ | ⟨hi, h⟩
  · obtain ⟨c, hc1, hc2⟩ := h1 i u h
    exact ⟨c, hc1, by rw [List.getElem?_append_left (by omega)]; exact hc2⟩
  · rcases h2 _ u h with ⟨h0, c, hc⟩ | ⟨h0, c, hc⟩
    · have hi' : i = l1.length := by omega
      subst hi'
      have hpos : 0 < l1.length := by
        cases l1 with
        | nil => simp at hc
        | cons x xs => simp
      refine ⟨c, hpos, ?_⟩
      rw [List.getElem?_append_left (by omega)]
      rw [List.getLast?_eq_getElem?] at hc
      exact hc
    · refine ⟨c, by omega, ?_⟩
      rw [List.getElem?_append_right (by omega)]
      have : i - 1 - l1.length = i - l1.length - 1 := by omega
      rw [this]; exact hc

theorem fag_snoc (l : List Event) (e : Event) (h1 : FactoryAfterGet l)
    (h2 : ∀ u, e = .factory u → ∃ c, l.getLast? = some (.get c u)) :
    FactoryAfterGet (l ++ [e]) := by
  apply fag_append l [e] h1
  intro i u h
  cases i with
  | zero => simp at h; exact Or.inl ⟨rfl, h2 u h⟩
  | succ n => simp at h

theorem movesOK_append (l1 l2 : List Event) (h1 : MovesOK l1)
    (h2 : ∀ i o t, l2[i]? = some (.moveToThread o t) →
      .threadStart t ∈ l1 ∨ .threadStart t ∈ l2.take i ∨ l2[i + 1]? = some (.threadStart t)) :
    MovesOK (l1 ++ l2) := by
  intro i o t h
  rcases getElem?_append_cases l1 l2 i _ h with ⟨hi, h⟩ | ⟨hi, h⟩
  · rcases h1 i o t h with hs | hs
    · left; rw [List.take_append_of_le_length (by omega)]; exact hs
    · rcases Nat.lt_or_ge (i + 1) l1.length with hlt | hge
      · right; rw [List.getElem?_append_left hlt]; exact hs
      · rw [List.getElem?_eq_none (by omega)] at hs; simp at hs
  · rcases h2 _ o t h with hs | hs | hs
    · left
      rw [List.take_append_eq_append_take]
      rw [List.take_of_length_le hi]
      exact List.mem_append_left _ hs
    · left
      rw [List.take_append_eq_append_take]
      exact List.mem_append_right _ hs
    · right
      rw [List.getElem?_append_right (by omega)]
      have : i + 1 - l1.length = i - l1.length + 1 := by omega
      rw [this]; exact hs

theorem mts_append (l blk : List Event) (b : ObjId) (h : MovedToStarted l b)
    (hb : ∀ t, Event.moveToThread b t ∉ blk) : MovedToStarted (l ++ blk) b := by
  intro i t hi
  rcases getElem?_append_cases l blk i _ hi with ⟨hlt, h1⟩ | ⟨hge, h1⟩
  · rw [List.take_append_of_le_length (by omega)]; exact h i t h1
  · exact absurd (List.getElem?_mem h1) (hb t)

theorem mtn_append (l blk : List Event) (b : ObjId) (h : MovedThenStarted l b)
    (hb : ∀ t, Event.moveToThread b t ∉ blk) : MovedThenStarted (l ++ blk) b := by
  intro i t hi
  rcases getElem?_append_cases l blk i _ hi with ⟨hlt, h1⟩ | ⟨hge, h1⟩
  · obtain ⟨h2, h3⟩ := h i t h1
    rw [List.take_append_of_le_length (by omega)]
    refine ⟨h2, ?_⟩
    rcases Nat.lt_or_ge (i + 1) l.length with hlt1 | hge1
    · rw [List.getElem?_append_left hlt1]; exact h3
    · rw [List.getElem?_eq_none (by omega)] at h3; cases h3
  · exact absurd (List.getElem?_mem h1) (hb t)

theorem mem_blk_of_mem_append {l blk : List Event} {e : Event} (h : e ∈ l ++ blk)
    (hn : e ∉ blk) : e ∈ l := by
  rcases List.mem_append.mp h with h | h
  · exact h
  · exact absurd h hn

/-- Statements that leave the slots and the threads alone preserve `Inv`. -/
theorem inv_frame (a a1 : Application) (blk : List Event) (hI : Inv a)
    (hp : a1.p_ = a.p_) (ht : a1.threads_ = a.threads_) (ho : a.objects ≤ a1.objects)
    (hq : a1.qthreads = a.qthreads)
    (hth : ∀ s o, a.p_ s = some o → a1.thread o = a.thread o)
    (hr : a1.running = a.running)
    (hl : a1.log = a.log ++ blk) (hc : createdThreads blk = [])
    (hf : ∀ i u, blk[i]? = some (.factory u) →
      (i = 0 ∧ ∃ c, a.log.getLast? = some (.get c u)) ∨
        (1 ≤ i ∧ ∃ c, blk[i - 1]? = some (.get c u)))
    (hm : ∀ i o t, blk[i]? = some (.moveToThread o t) →
      .threadStart t ∈ a.log ∨ .threadStart t ∈ blk.take i ∨
        blk[i + 1]? = some (.threadStart t))
    (hmv : ∀ o t, Event.moveToThread o t ∈ blk → o < a1.objects ∧ ∀ s, a.p_ s ≠ some o)
    (hst : ∀ t, Event.threadStart t ∉ blk)
    (hlive : ∀ e ∈ blk, e.isTeardown = false) : Inv a1 where
  objs := by
    intro s o h; rw [hp] at h; exact lt_of_lt_of_le (hI.objs s o h) ho
  thr_ids := by rw [ht, hq]; exact hI.thr_ids
  created := by rw [hl, createdThreads_append, hc, ht, hI.created]; simp
  running := by
    intro t h; rw [ht] at h; rw [hr]; exact hI.running t h
  started := by
    intro t h; rw [ht] at h; rw [hl]; exact List.mem_append_left _ (hI.started t h)
  affinity := by
    intro s o hs h; rw [hp] at h; rw [hth s o h, ht]; exact hI.affinity s o hs h
  pb := by
    intro b h; rw [hp] at h
    obtain ⟨d, hd, hbd⟩ := hI.pb b h
    exact ⟨d, by rw [hp]; exact hd, by rw [hth _ b h, hth _ d hd]; exact hbd⟩
  moved := by
    intro o t h; rw [hl] at h
    rcases List.mem_append.mp h with h | h
    · exact lt_of_lt_of_le (hI.moved o t h) ho
    · exact (hmv o t h).1
  fag := by rw [hl]; exact fag_append _ _ hI.fag hf
  moves := by rw [hl]; exact movesOK_append _ _ hI.moves hm
  pbMove := by
    intro b h; rw [hp] at h; rw [hl]
    refine ⟨mts_append _ _ _ (hI.pbMove b h).1 ?_, ?_⟩
    · intro t hmem
      exact (hmv b t hmem).2 _ h
    · rw [hth _ b h]; exact List.mem_append_left _ (hI.pbMove b h).2
  relocated := by
    intro s o hs h; rw [hp] at h; rw [hl]
    refine ⟨mtn_append _ _ _ (hI.relocated s o hs h).1 ?_, ?_⟩
    · intro t hmem
      exact (hmv o t hmem).2 _ h
    · rw [hth _ o h]; exact List.mem_append_left _ (hI.relocated s o hs h).2
  inj := by rw [hp]; exact hI.inj
  storedLog := by
    intro s o h; rw [hp] at h; rw [hl]; exact List.mem_append_left _ (hI.storedLog s o h)
  startedIds := by
    intro t h; rw [hl] at h; rw [hq]
    rcases List.mem_append.mp h with h | h
    · exact hI.startedIds t h
    · exact absurd h (hst t)
  live := by
    intro e h; rw [hl] at h
    rcases List.mem_append.mp h with h | h
    · exact hI.live e h
    · exact hlive e h

theorem inv_emit (a : Application) (e : Event) (hI : Inv a) (he : e.benign = true) :
    Inv (a.emit e) := by
  apply inv_frame a (a.emit e) [e] hI rfl rfl (le_refl _) rfl (fun _ _ _ => rfl) rfl rfl
  · cases e <;> simp_all [createdThreads, Event.benign]
  · intro i u h
    cases i with
    | zero => simp at h; subst h; simp [Event.benign] at he
    | succ n => simp at h
  · intro i o t h
    cases i with
    | zero => simp at h; subst h; simp [Event.benign] at he
    | succ n => simp at h
  · intro o t h; simp at h; subst h; simp [Event.benign] at he
  · intro t h; simp at h; subst h; simp [Event.benign] at he
  · intro e1 h; simp at h; subst h; cases e1 <;> simp_all [Event.benign, Event.isTeardown]

theorem inv_emit_factory (a : Application) (c : Caller) (s : Slot) (hI : Inv a) :
    Inv ((a.emit (.get c s)).emit (.factory s)) := by
  have h1 := inv_emit a (.get c s) hI rfl
  apply inv_frame _ ((a.emit (.get c s)).emit (.factory s)) [.factory s] h1 rfl rfl
    (le_refl _) rfl (fun _ _ _ => rfl) rfl rfl
  · simp [createdThreads]
  · intro i u h
    cases i with
    | zero => simp at h; subst h; left; exact ⟨rfl, c, by simp⟩
    | succ n => simp at h
  · intro i o t h
    cases i with
    | zero => simp at h
    | succ n => simp at h
  · intro o t h; simp at h
  · intro t h; simp at h
  · intro e1 h; simp at h; subst h; rfl

theorem inv_alloc (a : Application) (hI : Inv a) : Inv (alloc a) := by
  apply inv_frame a (alloc a) [.new a.objects] hI rfl rfl (Nat.le_succ _) rfl
    (fun _ _ _ => rfl) rfl rfl
  · simp [createdThreads]
  · intro i u h
    cases i with
    | zero => simp at h
    | succ n => simp at h
  · intro i o t h
    cases i with
    | zero => simp at h
    | succ n => simp at h
  · intro o t h; simp at h
  · intro t h; simp at h
  · intro e1 h; simp at h; subst h; rfl

theorem inv_MoveToThread (a : Application) (o : ObjId) (t : ThreadId) (hI : Inv a)
    (ho : o < a.objects) (hf : ∀ s, a.p_ s ≠ some o) (ht : Event.threadStart t ∈ a.log) :
    Inv (a.MoveToThread o t) := by
  apply inv_frame a (a.MoveToThread o t) [.setParent o, .moveToThread o t] hI rfl rfl
    (le_refl _) rfl ?_ rfl (by simp)
  · simp [createdThreads]
  · intro i u h
    match i with
    | 0 => simp at h
    | 1 => simp at h
    | n + 2 => simp at h
  · intro i x y h
    match i with
    | 0 => simp at h
    | 1 => simp at h; left; rw [← h.2]; exact ht
    | n + 2 => simp at h
  · intro x y h; simp at h; rw [h.1]; exact ⟨ho, hf⟩
  · intro x h; simp at h
  · intro e1 h; simp at h; rcases h with h | h <;> subst h <;> rfl
  · intro s x hx
    have : x ≠ o := by rintro rfl; exact hf s hx
    simp [Function.update_noteq this]

theorem inv_MoveToNewThread (a : Application) (o : ObjId) (hI : Inv a)
    (ho : o < a.objects) (hf : ∀ s, a.p_ s ≠ some o) : Inv (a.MoveToNewThread o) where
  objs := by intro s x h; exact hI.objs s x h
  thr_ids := by
    simp only [mtn_threads_, mtn_qthreads]
    rw [hI.thr_ids, List.range'_1_concat]; simp [Nat.add_comm]
  created := by
    simp only [mtn_log, mtn_threads_, createdThreads_append, hI.created]
    simp [createdThreads]
  running := by
    intro t h
    simp only [mtn_threads_, List.mem_append, List.mem_singleton] at h
    simp only [mtn_running]
    by_cases e : t = a.qthreads + 1
    · rw [e]; simp
    · rw [Function.update_noteq e]
      rcases h with h | h
      · exact hI.running t h
      · exact absurd h e
  started := by
    intro t h
    simp only [mtn_threads_, List.mem_append, List.mem_singleton] at h
    simp only [mtn_log, List.mem_append]
    rcases h with h | h
    · left; exact hI.started t h
    · right; subst h; simp
  affinity := by
    intro s x hs h
    have : x ≠ o := by rintro rfl; exact hf s h
    simp only [mtn_thread, mtn_threads_, Function.update_noteq this]
    exact List.mem_append_left _ (hI.affinity s x hs h)
  pb := by
    intro b h
    obtain ⟨d, hd, hbd⟩ := hI.pb b h
    have h1 : b ≠ o := by rintro rfl; exact hf _ h
    have h2 : d ≠ o := by rintro rfl; exact hf _ hd
    exact ⟨d, hd, by simp only [mtn_thread, Function.update_noteq h1, Function.update_noteq h2]; exact hbd⟩
  moved := by
    intro x t h
    simp only [mtn_log, List.mem_append] at h
    rcases h with h | h
    · exact hI.moved x t h
    · simp at h; rw [h.1]; exact ho
  fag := by
    simp only [mtn_log]
    apply fag_append _ _ hI.fag
    intro i u h
    match i with
    | 0 => simp at h
    | 1 => simp at h
    | 2 => simp at h
    | 3 => simp at h
    | n + 4 => simp at h
  moves := by
    simp only [mtn_log]
    apply movesOK_append _ _ hI.moves
    intro i x t h
    match i with
    | 0 => simp at h
    | 1 => simp at h
    | 2 => simp at h; right; right; simp [h.2]
    | 3 => simp at h
    | n + 4 => simp at h
  pbMove := by
    intro b h
    have hb : b ≠ o := by rintro rfl; exact hf _ h
    simp only [mtn_log, mtn_thread, Function.update_noteq hb]
    refine ⟨mts_append _ _ _ (hI.pbMove b h).1 ?_, List.mem_append_left _ (hI.pbMove b h).2⟩
    intro t hmem
    simp at hmem
    exact hb hmem.1
  relocated := by
    intro s x hs h
    have hb : x ≠ o := by rintro rfl; exact hf _ h
    simp only [mtn_log, mtn_thread, Function.update_noteq hb]
    refine ⟨mtn_append _ _ _ (hI.relocated s x hs h).1 ?_,
      List.mem_append_left _ (hI.relocated s x hs h).2⟩
    intro t hmem
    simp at hmem
    exact hb hmem.1
  inj := hI.inj
  storedLog := by
    intro s x h; rw [mtn_log]; exact List.mem_append_left _ (hI.storedLog s x h)
  startedIds := by
    intro t h
    simp only [mtn_log, List.mem_append, mtn_qthreads] at h ⊢
    rcases h with h | h
    · exact Nat.le_succ_of_le (hI.startedIds t h)
    · simp at h; exact le_of_eq h
  live := by
    intro e h
    simp only [mtn_log, List.mem_append] at h
    rcases h with h | h
    · exact hI.live e h
    · simp at h; rcases h with h | h | h | h <;> subst h <;> rfl

theorem inv_store (a : Application) (s : Slot) (o : Nat) (hI : Inv a)
    (hn : a.p_ s = none) (hR : Ready s o a) : Inv (a.store s o) where
  objs := by
    intro u x h
    simp only [store_p_, Function.update_apply] at h
    split at h
    · simp at h; subst h; exact hR.lt
    · exact hI.objs u x h
  thr_ids := hI.thr_ids
  created := by
    simp only [store_log, createdThreads_append, store_threads_, hI.created]
    simp [createdThreads]
  running := hI.running
  started := by
    intro t h; exact List.mem_append_left _ (hI.started t h)
  affinity := by
    intro u x hu h
    simp only [store_p_, Function.update_apply] at h
    split at h
    · next e => simp at h; subst h; subst e; exact (hR.owns hu).1
    · exact hI.affinity u x hu h
  pb := by
    intro b h
    simp only [store_p_, Function.update_apply] at h ⊢
    split at h
    · next e =>
      simp at h; subst h
      obtain ⟨d, hd, hbd⟩ := (hR.pb e.symm).1
      refine ⟨d, ?_, hbd⟩
      rw [if_neg (by rw [← e]; decide)]; exact hd
    · obtain ⟨d, hd, hbd⟩ := hI.pb b h
      refine ⟨d, ?_, hbd⟩
      split
      · next e => subst e; rw [hn] at hd; cases hd
      · exact hd
  moved := by
    intro x t h
    simp only [store_log, List.mem_append] at h
    rcases h with h | h
    · exact hI.moved x t h
    · simp at h
  fag := by
    apply fag_snoc _ _ hI.fag
    intro u h; cases h
  moves := by
    simp only [store_log]
    apply movesOK_append _ _ hI.moves
    intro i x t h
    match i with
    | 0 => simp at h
    | n + 1 => simp at h
  pbMove := by
    intro b h
    simp only [store_log]
    simp only [store_p_, Function.update_apply] at h
    split at h
    · next e =>
      simp at h; subst h
      exact ⟨mts_append _ _ _ (hR.pb e.symm).2.1 (by simp),
        List.mem_append_left _ (hR.pb e.symm).2.2⟩
    · exact ⟨mts_append _ _ _ (hI.pbMove b h).1 (by simp),
        List.mem_append_left _ (hI.pbMove b h).2⟩
  relocated := by
    intro u x hu h
    simp only [store_log, store_thread]
    simp only [store_p_, Function.update_apply] at h
    split at h
    · next e =>
      simp at h; subst h; subst e
      exact ⟨mtn_append _ _ _ (hR.owns hu).2.1 (by simp),
        List.mem_append_left _ (hR.owns hu).2.2⟩
    · exact ⟨mtn_append _ _ _ (hI.relocated u x hu h).1 (by simp),
        List.mem_append_left _ (hI.relocated u x hu h).2⟩
  inj := by
    intro s1 s2 x h1 h2
    simp only [store_p_, Function.update_apply] at h1 h2
    split at h1 <;> split at h2
    · next e1 e2 => rw [e1, e2]
    · next e1 e2 => simp at h1; subst h1; exact absurd h2 (hR.notStored s2)
    · next e1 e2 => simp at h2; subst h2; exact absurd h1 (hR.notStored s1)
    · exact hI.inj s1 s2 x h1 h2
  storedLog := by
    intro u x h
    simp only [store_p_, Function.update_apply] at h
    simp only [store_log, List.mem_append, List.mem_singleton]
    split at h
    · next e => simp at h; subst h; subst e; exact Or.inr rfl
    · exact Or.inl (hI.storedLog u x h)
  startedIds := by
    intro t h
    simp only [store_log, List.mem_append, List.mem_singleton, reduceCtorEq, or_false] at h
    exact hI.startedIds t h
  live := by
    intro e h
    simp only [store_log, List.mem_append] at h
    rcases h with h | h
    · exact hI.live e h
    · simp at h; subst h; rfl

/-! ## The relation `Step` -/

theorem EvOK.weaken {r : Slot → Nat} {K K1 n n1 : Nat} {e : Event} (hK : K ≤ K1) (hn : n1 ≤ n)
    (h : EvOK r K n e) : EvOK r K1 n1 e := by
  cases e <;> simp only [EvOK] at h ⊢
  · exact ⟨h.1, by omega⟩
  · omega
  · omega
  · omega
  · exact ⟨by omega, by omega⟩

theorem Step.here (r : Slot → Nat) (K n : Nat) (a : Application) : Step r K n a a where
  p_frame := fun _ _ => rfl
  p_mono := fun _ _ h => h
  p_new := fun _ _ h => Or.inl h
  objs := le_refl _
  thr := ⟨[], by simp⟩
  thread_frame := fun _ _ => rfl
  tr := ⟨[], by simp⟩

theorem Step.andThen {r : Slot → Nat} {K n : Nat} {a a1 a2 : Application}
    (h1 : Step r K n a a1) (h2 : Step r K n a1 a2) : Step r K n a a2 where
  p_frame := fun u hu => by rw [h2.p_frame u hu, h1.p_frame u hu]
  p_mono := fun u x h => h2.p_mono u x (h1.p_mono u x h)
  p_new := fun u x h => by
    rcases h2.p_new u x h with h | h
    · exact h1.p_new u x h
    · exact Or.inr h
  objs := le_trans h1.objs h2.objs
  thr := by
    obtain ⟨t1, e1⟩ := h1.thr
    obtain ⟨t2, e2⟩ := h2.thr
    exact ⟨t1 ++ t2, by rw [e2, e1, List.append_assoc]⟩
  thread_frame := fun x hx => by rw [h2.thread_frame x hx, h1.thread_frame x hx]
  tr := by
    obtain ⟨l1, e1, p1⟩ := h1.tr
    obtain ⟨l2, e2, p2⟩ := h2.tr
    refine ⟨l1 ++ l2, by rw [e2, e1, List.append_assoc], ?_⟩
    intro e he
    rcases List.mem_append.mp he with he | he
    · exact p1 e he
    · exact p2 e he

theorem Step.widen {r : Slot → Nat} {K K1 n n1 : Nat} {a a1 : Application}
    (hK : K ≤ K1) (hn : n1 ≤ n) (h : Step r K n a a1) : Step r K1 n1 a a1 where
  p_frame := fun u hu => h.p_frame u (le_trans hK hu)
  p_mono := h.p_mono
  p_new := fun u x hx => by
    rcases h.p_new u x hx with h1 | h1
    · exact Or.inl h1
    · exact Or.inr (le_trans hn h1)
  objs := h.objs
  thr := h.thr
  thread_frame := fun x hx => h.thread_frame x (lt_of_lt_of_le hx hn)
  tr := by
    obtain ⟨l, e, p⟩ := h.tr
    exact ⟨l, e, fun e1 he => EvOK.weaken hK hn (p e1 he)⟩

theorem step_emit (r : Slot → Nat) (K n : Nat) (a : Application) (e : Event)
    (he : EvOK r K n e) : Step r K n a (a.emit e) where
  p_frame := fun _ _ => rfl
  p_mono := fun _ _ h => h
  p_new := fun _ _ h => Or.inl h
  objs := le_refl _
  thr := ⟨[], by simp⟩
  thread_frame := fun _ _ => rfl
  tr := ⟨[e], rfl, by simpa using he⟩

theorem step_alloc (r : Slot → Nat) (K n : Nat) (a : Application) (hn : n ≤ a.objects) :
    Step r K n a (alloc a) where
  p_frame := fun _ _ => rfl
  p_mono := fun _ _ h => h
  p_new := fun _ _ h => Or.inl h
  objs := Nat.le_succ _
  thr := ⟨[], by simp [alloc]⟩
  thread_frame := fun _ _ => rfl
  tr := ⟨[.new a.objects], rfl, by simpa [EvOK] using hn⟩

theorem step_mtt (r : Slot → Nat) (K n : Nat) (a : Application) (o : ObjId) (t : ThreadId)
    (hn : n ≤ o) : Step r K n a (a.MoveToThread o t) where
  p_frame := fun _ _ => rfl
  p_mono := fun _ _ h => h
  p_new := fun _ _ h => Or.inl h
  objs := le_refl _
  thr := ⟨[], by simp⟩
  thread_frame := fun x hx => by
    have : x ≠ o := by omega
    simp [Function.update_noteq this]
  tr := ⟨_, mtt_log o t a, by simpa [EvOK] using hn⟩

theorem step_mtn (r : Slot → Nat) (K n : Nat) (a : Application) (o : ObjId)
    (hn : n ≤ o) : Step r K n a (a.MoveToNewThread o) where
  p_frame := fun _ _ => rfl
  p_mono := fun _ _ h => h
  p_new := fun _ _ h => Or.inl h
  objs := le_refl _
  thr := ⟨[a.qthreads + 1], rfl⟩
  thread_frame := fun x hx => by
    have : x ≠ o := by omega
    simp [Function.update_noteq this]
  tr := ⟨_, mtn_log o a, by simpa [EvOK] using hn⟩

theorem step_store (r : Slot → Nat) (K n : Nat) (a : Application) (s : Slot) (o : ObjId)
    (hs : r s < K) (hn : n ≤ o) (hp : a.p_ s = none) : Step r K n a (a.store s o) where
  p_frame := fun u hu => by
    have : u ≠ s := by rintro rfl; omega
    simp [Function.update_noteq this]
  p_mono := fun u x h => by
    have : u ≠ s := by rintro rfl; rw [hp] at h; cases h
    simpa [Function.update_noteq this] using h
  p_new := fun u x h => by
    simp only [store_p_, Function.update_apply] at h
    split at h
    · simp at h; subst h; exact Or.inr hn
    · exact Or.inl h
  objs := le_refl _
  thr := ⟨[], by simp⟩
  thread_frame := fun _ _ => rfl
  tr := ⟨[.stored s o], rfl, by simpa [EvOK] using ⟨hs, hn⟩⟩

theorem step_count {r : Slot → Nat} {K n : Nat} {a a1 : Application} (h : Step r K n a a1)
    (u : Slot) (hu : K ≤ r u) : a1.log.count (.factory u) = a.log.count (.factory u) := by
  obtain ⟨l, e, p⟩ := h.tr
  rw [e, List.count_append]
  have : l.count (.factory u) = 0 := by
    rw [List.count_eq_zero]
    intro hmem
    have := p _ hmem
    simp only [EvOK] at this
    omega
  omega

theorem fresh_step {r : Slot → Nat} {K n : Nat} {a a1 : Application} (h : Step r K n a a1)
    (x : Nat) (hx : x < n) (hf : Fresh x a) : Fresh x a1 := by
  constructor
  · intro u hu
    rcases h.p_new u x hu with h1 | h1
    · exact hf.1 u h1
    · omega
  · intro t ht
    obtain ⟨l, e, p⟩ := h.tr
    rw [e] at ht
    rcases List.mem_append.mp ht with h1 | h1
    · exact hf.2 t h1
    · have := p _ h1
      simp only [EvOK] at this
      omega

theorem fresh_alloc (a : Application) (hI : Inv a) : Fresh a.objects (alloc a) := by
  constructor
  · intro u hu
    have := hI.objs u _ hu
    omega
  · intro t ht
    simp only [alloc, emit_log, List.mem_append, List.mem_singleton] at ht
    rcases ht with h | h
    · have := hI.moved _ _ h
      omega
    · cases h

/-! ## `Owner` and `Good` -/

theorem threadCount_frame (p q : Slot → Option ObjId)
    (h : ∀ u, u.ownsThread = true → (q u).isSome = (p u).isSome) :
    (threadSlots.filter (fun s => (q s).isSome)).length =
      (threadSlots.filter (fun s => (p s).isSome)).length := by
  have h1 := h .tag_reader_client rfl
  have h2 := h .database rfl
  have h3 := h .album_cover_loader rfl
  simp only [threadSlots, List.filter, h1, h2, h3]

theorem threadCount_store (p : Slot → Option ObjId) (s : Slot) (o : ObjId)
    (hs : s.ownsThread = true) (hn : p s = none) :
    (threadSlots.filter (fun u => (Function.update p s (some o) u).isSome)).length =
      (threadSlots.filter (fun u => (p u).isSome)).length + 1 := by
  cases s <;> simp [Slot.ownsThread] at hs <;>
    simp only [threadSlots, List.filter, Function.update_apply, hn] <;>
    simp <;>
    cases p .tag_reader_client <;> cases p .database <;> cases p .album_cover_loader <;>
    simp_all

theorem owner_frame (a a1 : Application) (hO : Owner a) (hp : a1.p_ = a.p_)
    (ht : a1.threads_ = a.threads_)
    (hth : ∀ s o, a.p_ s = some o → a1.thread o = a.thread o) : Owner a1 := by
  refine ⟨?_, by rw [ht, hp]; exact hO.2⟩
  intro t h
  rw [ht] at h
  obtain ⟨s, o, hs, hso, hto⟩ := hO.1 t h
  exact ⟨s, o, hs, by rw [hp]; exact hso, by rw [hth s o hso]; exact hto⟩

theorem owner_store (a : Application) (s : Slot) (o : ObjId) (hO : Owner a)
    (hn : a.p_ s = none) (hs : s.ownsThread = false) : Owner (a.store s o) := by
  refine ⟨?_, ?_⟩
  · intro t h
    obtain ⟨u, x, hu, hux, htx⟩ := hO.1 t h
    refine ⟨u, x, hu, ?_, htx⟩
    have : u ≠ s := by rintro rfl; rw [hn] at hux; cases hux
    simp [Function.update_noteq this, hux]
  · simp only [store_threads_, store_p_]
    rw [hO.2]
    symm
    apply threadCount_frame
    intro u hu
    have : u ≠ s := by rintro rfl; rw [hs] at hu; cases hu
    rw [Function.update_noteq this]

theorem owner_newThread (a a1 : Application) (s : Slot) (o : ObjId) (hO : Owner a)
    (hn : a.p_ s = none) (hs : s.ownsThread = true) (hf : ∀ u, a.p_ u ≠ some o)
    (hp : a1.p_ = a.p_) (ht : a1.threads_ = a.threads_ ++ [a.qthreads + 1])
    (hth : a1.thread = Function.update a.thread o (a.qthreads + 1)) :
    Owner (a1.store s o) := by
  refine ⟨?_, ?_⟩
  · intro t h
    simp only [store_threads_, ht, List.mem_append, List.mem_singleton] at h
    rcases h with h | h
    · obtain ⟨u, x, hu, hux, htx⟩ := hO.1 t h
      have h1 : u ≠ s := by rintro rfl; rw [hn] at hux; cases hux
      have h2 : x ≠ o := by rintro rfl; exact hf u hux
      refine ⟨u, x, hu, ?_, ?_⟩
      · simp [Function.update_noteq h1, hp, hux]
      · simp [hth, Function.update_noteq h2, htx]
    · exact ⟨s, o, hs, by simp, by simp [hth, h]⟩
  · simp only [store_threads_, store_p_, ht, hp, List.length_append, List.length_singleton]
    rw [threadCount_store a.p_ s o hs hn, hO.2]

theorem good_frame (a a1 : Application) (u : Slot) (hG : Good a u) (hp : a1.p_ u = a.p_ u)
    (hc : a1.log.count (.factory u) = a.log.count (.factory u)) : Good a1 u := by
  unfold Good at *
  rw [hc, hp]; exact hG

theorem good_step {r : Slot → Nat} {K n : Nat} {a a1 : Application} (h : Step r K n a a1)
    (u : Slot) (hu : K ≤ r u) (hG : Good a u) : Good a1 u :=
  good_frame a a1 u hG (h.p_frame u hu) (step_count h u hu)

theorem good_emit (a : Application) (e : Event) (u : Slot) (hG : Good a u)
    (he : e ≠ .factory u) : Good (a.emit e) u := by
  refine good_frame a _ u hG rfl ?_
  simp only [emit_log, List.count_append]
  have : [e].count (.factory u) = 0 := by
    rw [List.count_eq_zero]; simpa using fun h => he h.symm
  omega

theorem good_alloc (a : Application) (u : Slot) (hG : Good a u) : Good (alloc a) u := by
  refine good_frame a _ u hG rfl ?_
  simp [alloc, List.count_append]

theorem good_mtt (a : Application) (o : ObjId) (t : ThreadId) (u : Slot) (hG : Good a u) :
    Good (a.MoveToThread o t) u := by
  refine good_frame a _ u hG rfl ?_
  simp [List.count_append]

theorem good_mtn (a : Application) (o : ObjId) (u : Slot) (hG : Good a u) :
    Good (a.MoveToNewThread o) u := by
  refine good_frame a _ u hG rfl ?_
  simp [List.count_append]

theorem good_store (a : Application) (s : Slot) (o : ObjId) (u : Slot) (hG : Good a u)
    (hu : u ≠ s) : Good (a.store s o) u := by
  refine good_frame a _ u hG ?_ ?_
  · simp [Function.update_noteq hu]
  · simp [List.count_append]

theorem GoodBelow.lower {r : Slot → Nat} {K K1 : Nat} {a : Application} (h : GoodBelow r K a)
    (hK : K1 ≤ K) : GoodBelow r K1 a := fun u hu => h u (lt_of_lt_of_le hu hK)

theorem SeqPost.nil (r : Slot → Nat) (K : Nat) (a : Application) (hI : Inv a)
    (hO : Owner a) : SeqPost r K a a :=
  ⟨hI, hO, fun _ h => h, Step.here r K _ a⟩

theorem SeqPost.append {r : Slot → Nat} {K : Nat} {a a1 a2 : Application}
    (h1 : SeqPost r K a a1) (h2 : SeqPost r K a1 a2) : SeqPost r K a a2 :=
  ⟨h2.inv, h2.owner, fun u h => h2.good u (h1.good u h),
    h1.step.andThen (h2.step.widen (le_refl _) h1.step.objs)⟩

theorem SeqPost.goodBelow {r : Slot → Nat} {K K1 : Nat} {a a1 : Application}
    (h : SeqPost r K a a1) (hG : GoodBelow r K1 a) : GoodBelow r K1 a1 :=
  fun u hu => h.good u (hG u hu)

/-- A nested accessor call, seen as a sequence. -/
theorem Post.seq {r : Slot → Nat} {K : Nat} {c : Caller} {t : Slot} {a : Application}
    {o : ObjId} {a1 : Application} (h : Post r c t a o a1) (hc : c ≠ .application)
    (ht : r t < K) : SeqPost r K a a1 :=
  ⟨h.inv, h.owner, h.good,
    (step_emit r K a.objects a (.get c t) ⟨hc, ht⟩).andThen (h.step.widen (by omega) (le_refl _))⟩

theorem accessAll_spec (r : Slot → Nat) (K : Nat) (g : Getter) (c : Caller)
    (hg : GetterOK r K g) (hc : c ≠ .application) :
    ∀ (l : List Slot) (a : Application), (∀ t ∈ l, r t < K) → Inv a → Owner a →
      GoodBelow r K a → ∃ a1, accessAll g c l a = some a1 ∧ SeqPost r K a a1 := by
  intro l
  induction l with
  | nil => intro a _ hI hO _; exact ⟨a, rfl, SeqPost.nil r K a hI hO⟩
  | cons t rest ih =>
    intro a hl hI hO hG
    have ht : r t < K := hl t (by simp)
    obtain ⟨o, a1, e1, p1⟩ := hg c t a ht hI hO (hG.lower (le_of_lt ht))
    have s1 := p1.seq hc ht
    obtain ⟨a2, e2, p2⟩ := ih a1 (fun u hu => hl u (by simp [hu])) p1.inv p1.owner
      (s1.goodBelow hG)
    exact ⟨a2, by simp [accessAll, e1, e2], s1.append p2⟩

theorem construct_spec (r : Slot → Nat) (K : Nat) (g : Getter) (c : Caller)
    (hg : GetterOK r K g) (hc : c ≠ .application) (l : List Slot) (a : Application)
    (hl : ∀ t ∈ l, r t < K) (hI : Inv a) (hO : Owner a) (hG : GoodBelow r K a) :
    ∃ a1, construct g c l a = some (a.objects, a1) ∧ SeqPost r K a a1 ∧
      Fresh a.objects a1 ∧ a.objects < a1.objects := by
  have hO1 : Owner (alloc a) := owner_frame a _ hO rfl rfl (fun _ _ _ => rfl)
  have hG1 : GoodBelow r K (alloc a) := fun u hu => good_alloc a u (hG u hu)
  obtain ⟨a1, e1, p1⟩ := accessAll_spec r K g c hg hc l (alloc a) hl (inv_alloc a hI) hO1 hG1
  refine ⟨a1, by simp [construct, e1], ⟨p1.inv, p1.owner, ?_, ?_⟩, ?_, ?_⟩
  · intro u h; exact p1.good u (good_alloc a u h)
  · exact (step_alloc r K a.objects a (le_refl _)).andThen
      (p1.step.widen (le_refl _) (Nat.le_succ _))
  · exact fresh_step p1.step a.objects (Nat.lt_succ_self _) (fresh_alloc a hI)
  · exact lt_of_lt_of_le (Nat.lt_succ_self _) p1.step.objs

theorem addProviders_spec (env : Env) (r : Slot → Nat) (K : Nat) (g : Getter)
    (hg : GetterOK r K g) (cp : ObjId) :
    ∀ (ps : List Provider) (a : Application), (∀ p ∈ ps, ∀ t ∈ env.providerCtor p, r t < K) →
      Inv a → Owner a → GoodBelow r K a →
      ∃ a1, addProviders env g cp ps a = some a1 ∧ SeqPost r K a a1 := by
  intro ps
  induction ps with
  | nil => intro a _ hI hO _; exact ⟨a, rfl, SeqPost.nil r K a hI hO⟩
  | cons p rest ih =>
    intro a hl hI hO hG
    obtain ⟨a1, e1, p1, _, _⟩ := construct_spec r K g (.providerCtor p) hg (by simp)
      (env.providerCtor p) a (hl p (by simp)) hI hO hG
    have s2 : SeqPost r K a1 (a1.emit (.AddProvider cp a.objects)) :=
      ⟨inv_emit _ _ p1.inv rfl, owner_frame _ _ p1.owner rfl rfl (fun _ _ _ => rfl),
        fun u h => good_emit _ _ u h (by simp), step_emit r K _ _ _ (by simp [EvOK])⟩
    have s12 := p1.append s2
    obtain ⟨a3, e3, p3⟩ := ih _ (fun q hq => hl q (by simp [hq])) s12.inv s12.owner
      (s12.goodBelow hG)
    exact ⟨a3, by simp [addProviders, addProvider, e1, e3], s12.append p3⟩

theorem GetterOK.restrict {r : Slot → Nat} {K K1 : Nat} {g : Getter} (h : GetterOK r K g)
    (hK : K1 ≤ K) : GetterOK r K1 g :=
  fun c t a ht => h c t a (lt_of_lt_of_le ht hK)

theorem ctor_mem_deps (env : Env) (s t : Slot) (h : t ∈ env.ctor s) : t ∈ deps env s := by
  cases s <;> simp [deps, h]

theorem database_mem_deps (env : Env) : Slot.database ∈ deps env .playlist_backend := by
  simp [deps]

theorem provider_mem_deps (env : Env) (p : Provider) (t : Slot) (hp : p ∈ providers env)
    (h : t ∈ env.providerCtor p) : t ∈ deps env .cover_providers := by
  simp only [deps, List.mem_append, List.mem_flatMap]
  exact Or.inr ⟨p, hp, h⟩

theorem wire_plain (env : Env) (g : Getter) (s : Slot) (o : ObjId) (a : Application)
    (h1 : s.ownsThread = false) (h2 : s ≠ .playlist_backend) (h3 : s ≠ .cover_providers) :
    wire env g s o a = some a := by
  cases s <;> simp_all [wire, Slot.ownsThread]

theorem ready_mtn (s : Slot) (o : Nat) (a : Application) (hI : Inv a) (hF : Fresh o a)
    (ho : o < a.objects) (hs : s.ownsThread = true) : Ready s o (a.MoveToNewThread o) where
  lt := ho
  notStored := hF.1
  owns := by
    intro _
    refine ⟨by simp, ?_, by simp⟩
    intro i t hi
    simp only [mtn_log] at hi ⊢
    rcases getElem?_append_cases _ _ i _ hi with ⟨_, h1⟩ | ⟨hge, h1⟩
    · exact absurd (List.getElem?_mem h1) (hF.2 t)
    · have hnew : Event.threadStart (a.qthreads + 1) ∉ a.log := by
        intro hm
        have := hI.startedIds _ hm
        omega
      rw [List.getElem?_append_right (by omega), List.take_append_eq_append_take,
        List.take_of_length_le hge]
      have e1 : i + 1 - a.log.length = i - a.log.length + 1 := by omega
      rw [e1]
      generalize i - a.log.length = j at h1 ⊢
      match j with
      | 0 => simp at h1
      | 1 => simp at h1
      | 2 => simp at h1; subst h1; simp [hnew]
      | 3 => simp at h1
      | n + 4 => simp at h1
  pb := by rintro rfl; simp [Slot.ownsThread] at hs

theorem ready_emit (s : Slot) (o : Nat) (a : Application) (e : Event) (hR : Ready s o a)
    (he : ∀ t, e ≠ .moveToThread o t) : Ready s o (a.emit e) where
  lt := hR.lt
  notStored := hR.notStored
  owns := fun hs =>
    ⟨(hR.owns hs).1, mtn_append _ _ _ (hR.owns hs).2.1 (by simpa using fun t h => he t h.symm),
      List.mem_append_left _ (hR.owns hs).2.2⟩
  pb := fun hs =>
    ⟨(hR.pb hs).1, mts_append _ _ _ (hR.pb hs).2.1 (by simpa using fun t h => he t h.symm),
      List.mem_append_left _ (hR.pb hs).2.2⟩

theorem wire_newThread_spec (r : Slot → Nat) (s : Slot) (o : Nat) (a : Application)
    (e : Event) (he : e.benign = true) (hev : EvOK r (r s) o e)
    (hne : ∀ u, e ≠ .factory u) (hs : s.ownsThread = true)
    (hI : Inv a) (hO : Owner a) (hF : Fresh o a) (ho : o < a.objects) (hn : a.p_ s = none) :
    Inv ((a.MoveToNewThread o).emit e) ∧ Ready s o ((a.MoveToNewThread o).emit e) ∧
      Owner (((a.MoveToNewThread o).emit e).store s o) ∧
      (∀ u, Good a u → Good ((a.MoveToNewThread o).emit e) u) ∧
      Step r (r s) o a ((a.MoveToNewThread o).emit e) := by
  refine ⟨inv_emit _ _ (inv_MoveToNewThread a o hI ho hF.1) he,
    ready_emit s o _ e (ready_mtn s o a hI hF ho hs) ?_, ?_, ?_, ?_⟩
  · intro t h; subst h; simp [Event.benign] at he
  · exact owner_newThread a _ s o hO hn hs hF.1 rfl rfl rfl
  · intro u h; exact good_emit _ _ u (good_mtn a o u h) (hne u)
  · exact (step_mtn r (r s) o a o (le_refl _)).andThen (step_emit r (r s) o _ e hev)

theorem wire_spec (env : Env) (r : Slot → Nat) (hr : Ranked env r) (g : Getter) (s : Slot)
    (hg : GetterOK r (r s) g) (o : Nat) (a : Application) (hI : Inv a) (hO : Owner a)
    (hG : GoodBelow r (r s) a) (hF : Fresh o a) (ho : o < a.objects) (hn : a.p_ s = none) :
    ∃ a1, wire env g s o a = some a1 ∧ Inv a1 ∧ Ready s o a1 ∧ Owner (a1.store s o) ∧
      (∀ u, Good a u → Good a1 u) ∧ Step r (r s) o a a1 := by
  by_cases hs : s.ownsThread = true
  · -- tag_reader_client, database, album_cover_loader
    have key : ∀ e : Event, e.benign = true → EvOK r (r s) o e → (∀ u, e ≠ .factory u) →
        wire env g s o a = some ((a.MoveToNewThread o).emit e) →
        ∃ a1, wire env g s o a = some a1 ∧ Inv a1 ∧ Ready s o a1 ∧ Owner (a1.store s o) ∧
          (∀ u, Good a u → Good a1 u) ∧ Step r (r s) o a a1 :=
      fun e he hev hne hw =>
        ⟨_, hw, wire_newThread_spec r s o a e he hev hne hs hI hO hF ho hn⟩
    cases s <;> simp [Slot.ownsThread] at hs
    · exact key (.Start o) rfl (by simp [EvOK]) (by simp) rfl
    · exact key (.DoInAMinuteOrSo o) rfl (by simp [EvOK]) (by simp) rfl
    · -- album_cover_loader has no statement after MoveToNewThread
      exact ⟨a.MoveToNewThread o, rfl, inv_MoveToNewThread a o hI ho hF.1,
        ready_mtn _ o a hI hF ho rfl, owner_newThread a _ _ o hO hn rfl hF.1 rfl rfl rfl,
        fun u h => good_mtn a o u h, step_mtn r _ o a o (le_refl _)⟩
  · have hs : s.ownsThread = false := by simpa using hs
    by_cases hpb : s = .playlist_backend
    · subst hpb
      have hdb : r .database < r .playlist_backend := hr _ _ (database_mem_deps env)
      obtain ⟨d, a1, e1, p1⟩ := hg (.factory .playlist_backend) .database a hdb hI hO
        (hG.lower (le_of_lt hdb))
      have s1 : Step r (r .playlist_backend) o a a1 :=
        (step_emit r _ o a (.get (.factory .playlist_backend) .database)
          ⟨by simp, hdb⟩).andThen (p1.step.widen (by omega) (le_of_lt ho))
      have hF0 : Fresh o (a.emit (.get (.factory .playlist_backend) .database)) :=
        ⟨hF.1, by intro t ht; simp at ht; exact hF.2 t ht⟩
      have hF1 : Fresh o a1 := fresh_step p1.step o ho hF0
      have ho1 : o < a1.objects := lt_of_lt_of_le ho s1.objs
      have hdo : d ≠ o := by rintro rfl; exact hF1.1 _ p1.stored
      have hst : Event.threadStart (a1.thread d) ∈ a1.log :=
        p1.inv.started _ (p1.inv.affinity .database d rfl p1.stored)
      have hn1 : a1.p_ .playlist_backend = none := by
        rw [s1.p_frame _ (le_refl _)]; exact hn
      refine ⟨a1.MoveToThread o (a1.thread d), by simp [wire, e1],
        inv_MoveToThread a1 o _ p1.inv ho1 hF1.1 hst, ⟨ho1, hF1.1, ?_, ?_⟩, ?_, ?_, ?_⟩
      · intro h; simp [Slot.ownsThread] at h
      · intro _
        refine ⟨⟨d, p1.stored, ?_⟩, ?_, by simp⟩
        · simp [Function.update_noteq hdo]
        · intro i t hi
          simp only [mtt_log] at hi ⊢
          rcases getElem?_append_cases _ _ i _ hi with ⟨_, h1⟩ | ⟨hge, h1⟩
          · exact absurd (List.getElem?_mem h1) (hF1.2 t)
          · have hmem := List.getElem?_mem h1
            simp at hmem
            rw [List.take_append_eq_append_take, List.take_of_length_le hge, hmem]
            exact List.mem_append_left _ hst
      · refine owner_store (a1.MoveToThread o (a1.thread d)) _ _ ?_ hn1 rfl
        refine owner_frame a1 _ p1.owner rfl rfl ?_
        intro u x hx
        have : x ≠ o := by rintro rfl; exact hF1.1 u hx
        simp [Function.update_noteq this]
      · intro u h; exact good_mtt _ _ _ u (p1.good u h)
      · exact s1.andThen (step_mtt r _ o a1 o _ (le_refl _))
    · by_cases hcp : s = .cover_providers
      · subst hcp
        obtain ⟨a1, e1, p1⟩ := addProviders_spec env r (r .cover_providers) g hg o
          (providers env) a (fun p hp t ht => hr _ _ (provider_mem_deps env p t hp ht))
          hI hO hG
        have s1 : Step r (r .cover_providers) o a a1 := p1.step.widen (le_refl _) (le_of_lt ho)
        have hn1 : a1.p_ .cover_providers = none := by
          rw [s1.p_frame _ (le_refl _)]; exact hn
        have hF1 : Fresh o a1 := fresh_step p1.step o ho hF
        refine ⟨a1, by simp [wire, e1], p1.inv,
          ⟨lt_of_lt_of_le ho s1.objs, hF1.1, ?_, ?_⟩,
          owner_store _ _ _ p1.owner hn1 rfl, p1.good, s1⟩
        · intro h; simp [Slot.ownsThread] at h
        · intro h; cases h
      · refine ⟨a, wire_plain env g s o a hs hpb hcp, hI, ⟨ho, hF.1, ?_, ?_⟩,
          owner_store _ _ _ hO hn hs, fun _ h => h, Step.here _ _ _ _⟩
        · intro h; rw [hs] at h; cases h
        · intro h; exact absurd h hpb

theorem get_hit (env : Env) (fuel : Nat) (c : Caller) (s : Slot) (a : Application)
    (o : ObjId) (h : a.p_ s = some o) :
    get env fuel c s a = some (o, a.emit (.get c s)) := by
  cases fuel <;> simp [get, h]

theorem get_miss (env : Env) (fuel : Nat) (c : Caller) (s : Slot) (a : Application)
    (h : a.p_ s = none) (o : ObjId) (a1 : Application)
    (hf : factory env (get env fuel) s ((a.emit (.get c s)).emit (.factory s)) = some (o, a1)) :
    get env (fuel + 1) c s a = some (o, a1.store s o) := by
  simp [get, h, hf]

/-- The accessor returns whenever construction is not circular, and then
establishes `Post`. -/
theorem get_ok (env : Env) (r : Slot → Nat) (hr : Ranked env r) :
    ∀ fuel, GetterOK r fuel (get env fuel) := by
  intro fuel
  induction fuel with
  | zero => intro c t a ht; exact absurd ht (Nat.not_lt_zero _)
  | succ f ih =>
    intro c s a hs hI hO hG
    cases hp : a.p_ s with
    | some o =>
      refine ⟨o, a.emit (.get c s), get_hit env (f + 1) c s a o hp, inv_emit a _ hI rfl,
        owner_frame a _ hO rfl rfl (fun _ _ _ => rfl), hp, ?_, Step.here _ _ _ _⟩
      intro u h; exact good_emit a _ u h (by simp)
    | none =>
      have hg : GetterOK r (r s) (get env f) := ih.restrict (by omega)
      -- the accessor call and the invocation of the factory
      have hI1 := inv_emit_factory a c s hI
      have hO1 : Owner ((a.emit (.get c s)).emit (.factory s)) :=
        owner_frame a _ hO rfl rfl (fun _ _ _ => rfl)
      have hne : ∀ u, r u < r s → u ≠ s := by
        intro u hu hus; rw [hus] at hu; exact lt_irrefl _ hu
      have hG1 : GoodBelow r (r s) ((a.emit (.get c s)).emit (.factory s)) := by
        intro u hu
        refine good_emit _ _ u (good_emit a _ u (hG u hu) (by simp)) ?_
        intro h; injection h with h; exact hne u hu h.symm
      -- new X(app)
      obtain ⟨a2, e2, p2, hF2, ho2⟩ := construct_spec r (r s) (get env f) (.ctorOf s) hg
        (by simp) (env.ctor s) _ (fun t ht => hr s t (ctor_mem_deps env s t ht)) hI1 hO1 hG1
      simp only [emit_objects] at e2 hF2 ho2
      have hn2 : a2.p_ s = none := by rw [p2.step.p_frame s (le_refl _)]; exact hp
      -- the rest of the factory
      obtain ⟨a3, e3, hI3, hR3, hO3, hgood3, s3⟩ := wire_spec env r hr (get env f) s hg
        a.objects a2 p2.inv p2.owner (p2.goodBelow hG1) hF2 ho2 hn2
      have hn3 : a3.p_ s = none := by rw [s3.p_frame s (le_refl _)]; exact hn2
      have s13 : Step r (r s) a.objects ((a.emit (.get c s)).emit (.factory s)) a3 :=
        p2.step.andThen s3
      refine ⟨a.objects, a3.store s a.objects, ?_, inv_store a3 s _ hI3 hn3 hR3, hO3,
        by simp, ?_, ?_⟩
      · apply get_miss env f c s a hp; simp [factory, e2, e3]
      · intro u h
        by_cases hu : u = s
        · subst hu
          unfold Good at h ⊢
          rw [hp] at h
          simp only [store_log, store_p_, Function.update_same, List.count_append]
          rw [step_count s13 u (le_refl _)]
          simp only [emit_log, List.count_append]
          simp at h ⊢
          simp [h]
        · refine good_store a3 s _ u (hgood3 u (p2.good u ?_)) hu
          refine good_emit _ _ u (good_emit a _ u h (by simp)) ?_
          intro h1; injection h1 with h1; exact hu h1.symm
      · exact ((step_emit r (r s + 1) a.objects _ (.factory s) (by simp [EvOK])).andThen
          (s13.widen (Nat.le_succ _) (le_refl _))).andThen
          (step_store r (r s + 1) a.objects a3 s _ (Nat.lt_succ_self _) (le_refl _) hn3)

/-! ## More fuel does not change the result -/

theorem accessAll_mono (g g1 : Getter) (h : ∀ c s a x, g c s a = some x → g1 c s a = some x)
    (c : Caller) : ∀ (l : List Slot) (a x : Application),
      accessAll g c l a = some x → accessAll g1 c l a = some x := by
  intro l
  induction l with
  | nil => intro a x hx; exact hx
  | cons t rest ih =>
    intro a x hx
    simp only [accessAll] at hx ⊢
    cases e : g c t a with
    | none => rw [e] at hx; cases hx
    | some p =>
      rw [e] at hx
      rw [h c t a p e]
      exact ih _ _ hx

theorem construct_mono (g g1 : Getter) (h : ∀ c s a x, g c s a = some x → g1 c s a = some x)
    (c : Caller) (l : List Slot) (a : Application) (x : ObjId × Application)
    (hx : construct g c l a = some x) : construct g1 c l a = some x := by
  simp only [construct] at hx ⊢
  cases e : accessAll g c l (alloc a) with
  | none => rw [e] at hx; cases hx
  | some p => rw [e] at hx; rw [accessAll_mono g g1 h c l _ p e]; exact hx

theorem addProviders_mono (env : Env) (g g1 : Getter)
    (h : ∀ c s a x, g c s a = some x → g1 c s a = some x) (cp : ObjId) :
    ∀ (ps : List Provider) (a x : Application),
      addProviders env g cp ps a = some x → addProviders env g1 cp ps a = some x := by
  intro ps
  induction ps with
  | nil => intro a x hx; exact hx
  | cons p rest ih =>
    intro a x hx
    simp only [addProviders, addProvider] at hx ⊢
    cases e : construct g (.providerCtor p) (env.providerCtor p) a with
    | none => rw [e] at hx; cases hx
    | some q =>
      rw [e] at hx
      rw [construct_mono g g1 h _ _ _ q e]
      exact ih _ _ hx

theorem wire_mono (env : Env) (g g1 : Getter)
    (h : ∀ c s a x, g c s a = some x → g1 c s a = some x) (s : Slot) (o : ObjId)
    (a x : Application) (hx : wire env g s o a = some x) : wire env g1 s o a = some x := by
  cases s <;> simp only [wire] at hx ⊢ <;> try exact hx
  · cases e : g (.factory .playlist_backend) .database a with
    | none => rw [e] at hx; cases hx
    | some q => rw [e] at hx; rw [h _ _ _ q e]; exact hx
  · exact addProviders_mono env g g1 h o _ _ _ hx

theorem factory_mono (env : Env) (g g1 : Getter)
    (h : ∀ c s a x, g c s a = some x → g1 c s a = some x) (s : Slot)
    (a : Application) (x : ObjId × Application) (hx : factory env g s a = some x) :
    factory env g1 s a = some x := by
  simp only [factory] at hx ⊢
  cases e : construct g (.ctorOf s) (env.ctor s) a with
  | none => rw [e] at hx; cases hx
  | some q =>
    rw [e] at hx
    rw [construct_mono g g1 h _ _ _ q e]
    obtain ⟨o, a1⟩ := q
    simp only at hx ⊢
    cases e2 : wire env g s o a1 with
    | none => rw [e2] at hx; cases hx
    | some a2 => rw [e2] at hx; rw [wire_mono env g g1 h s o a1 a2 e2]; exact hx

theorem get_mono_succ (env : Env) : ∀ (fuel : Nat) (c : Caller) (s : Slot) (a : Application)
    (x : ObjId × Application), get env fuel c s a = some x → get env (fuel + 1) c s a = some x := by
  intro fuel
  induction fuel with
  | zero =>
    intro c s a x hx
    cases hp : a.p_ s with
    | some o =>
      rw [get_hit env 0 c s a o hp] at hx
      rw [get_hit env 1 c s a o hp]; exact hx
    | none => simp [get, hp] at hx
  | succ f ih =>
    intro c s a x hx
    cases hp : a.p_ s with
    | some o =>
      rw [get_hit env (f + 1) c s a o hp] at hx
      rw [get_hit env (f + 1 + 1) c s a o hp]; exact hx
    | none =>
      cases e : factory env (get env f) s ((a.emit (.get c s)).emit (.factory s)) with
      | none => simp [get, hp, e] at hx
      | some q =>
        obtain ⟨o, a1⟩ := q
        rw [get_miss env f c s a hp o a1 e] at hx
        rw [get_miss env (f + 1) c s a hp o a1 (factory_mono env _ _ ih s _ _ e)]
        exact hx

theorem get_mono (env : Env) (fuel fuel1 : Nat) (hf : fuel ≤ fuel1) (c : Caller) (s : Slot)
    (a : Application) (x : ObjId × Application) (hx : get env fuel c s a = some x) :
    get env fuel1 c s a = some x := by
  induction hf with
  | refl => exact hx
  | step _ ih => exact get_mono_succ env _ c s a x ih

theorem callInit_mono (env : Env) (fuel fuel1 : Nat) (hf : fuel ≤ fuel1) (s : Slot)
    (a x : Application) (hx : callInit env fuel s a = some x) :
    callInit env fuel1 s a = some x := by
  simp only [callInit] at hx ⊢
  cases e : get env fuel .application s a with
  | none => rw [e] at hx; cases hx
  | some q =>
    rw [e] at hx
    rw [get_mono env fuel fuel1 hf _ _ _ q e]
    exact accessAll_mono _ _ (get_mono env fuel fuel1 hf) _ _ _ _ hx

theorem ctor_mono (env : Env) (fuel fuel1 : Nat) (hf : fuel ≤ fuel1) (x : Application)
    (hx : Application.ctor env fuel = some x) : Application.ctor env fuel1 = some x := by
  simp only [Application.ctor] at hx ⊢
  cases e1 : callInit env fuel .enginedevice Application.init with
  | none => rw [e1] at hx; cases hx
  | some a1 =>
    rw [e1] at hx
    rw [callInit_mono env fuel fuel1 hf _ _ a1 e1]
    simp only at hx ⊢
    cases e2 : callInit env fuel .collection a1 with
    | none => rw [e2] at hx; cases hx
    | some a2 =>
      rw [e2] at hx
      rw [callInit_mono env fuel fuel1 hf _ _ a2 e2]
      simp only at hx ⊢
      cases e3 : get env fuel .application .tag_reader_client a2 with
      | none => rw [e3] at hx; cases hx
      | some q => rw [e3] at hx; rw [get_mono env fuel fuel1 hf _ _ _ q e3]; exact hx

/-! ## The constructor -/

theorem inv_init : Inv Application.init where
  objs := by intro s o h; cases h
  thr_ids := rfl
  created := rfl
  running := by intro t h; cases h
  started := by intro t h; cases h
  affinity := by intro s o _ h; cases h
  pb := by intro b h; cases h
  moved := by intro o t h; cases h
  fag := by intro i u h; simp [Application.init] at h
  moves := by intro i o t h; simp [Application.init] at h
  pbMove := by intro b h; cases h
  relocated := by intro s o _ h; cases h
  inj := by intro s1 s2 o h; cases h
  storedLog := by intro s o h; cases h
  startedIds := by intro t h; cases h
  live := by intro e h; cases h

theorem owner_init : Owner Application.init :=
  ⟨fun t h => (by cases h), rfl⟩

theorem good_init (u : Slot) : Good Application.init u := by
  simp [Good, Application.init]

theorem exists_fuel (r : Slot → Nat) : ∃ F, ∀ s, r s < F :=
  ⟨Finset.univ.sup r + 1, fun s => Nat.lt_succ_of_le (Finset.le_sup (Finset.mem_univ s))⟩

/-- A top-level accessor call on a state where every slot is `Good`. -/
theorem get_top (env : Env) (r : Slot → Nat) (hr : Ranked env r) (fuel : Nat) (c : Caller)
    (s : Slot) (a : Application) (hs : r s < fuel) (hI : Inv a) (hO : Owner a)
    (hG : ∀ u, Good a u) :
    ∃ o a1 l, get env fuel c s a = some (o, a1) ∧ Inv a1 ∧ Owner a1 ∧ (∀ u, Good a1 u) ∧
      a1.p_ s = some o ∧ a1.log = a.log ++ .get c s :: l ∧
      (∀ x ∈ l, EvOK r (r s + 1) a.objects x) ∧
      Step r (r s + 1) a.objects (a.emit (.get c s)) a1 := by
  obtain ⟨o, a1, e1, p1⟩ := get_ok env r hr fuel c s a hs hI hO (fun u _ => hG u)
  obtain ⟨l, el, pl⟩ := p1.step.tr
  exact ⟨o, a1, l, e1, p1.inv, p1.owner, fun u => p1.good u (hG u), p1.stored,
    by rw [el]; simp, pl, p1.step⟩

theorem callInit_spec (env : Env) (r : Slot → Nat) (hr : Ranked env r) (fuel K : Nat)
    (s : Slot) (a : Application) (hs : r s < fuel) (hK : K ≤ fuel)
    (hl : ∀ t ∈ env.init s, r t < K) (hI : Inv a) (hO : Owner a) (hG : ∀ u, Good a u) :
    ∃ o a1 l1 l2, callInit env fuel s a = some a1 ∧ Inv a1 ∧ Owner a1 ∧ (∀ u, Good a1 u) ∧
      a1.p_ s = some o ∧
      a1.log = a.log ++ .get .application s :: l1 ++ .Init s o :: l2 ∧
      (∀ x ∈ l1, EvOK r (r s + 1) 0 x) ∧ (∀ x ∈ l2, EvOK r K 0 x) ∧
      (∀ u x, a.p_ u = some x → a1.p_ u = some x) := by
  obtain ⟨o, a1, l1, e1, hI1, hO1, hG1, hp1, hl1, hev1, st1⟩ :=
    get_top env r hr fuel .application s a hs hI hO hG
  have hI2 : Inv (a1.emit (.Init s o)) := inv_emit a1 _ hI1 rfl
  have hO2 : Owner (a1.emit (.Init s o)) := owner_frame a1 _ hO1 rfl rfl (fun _ _ _ => rfl)
  have hG2 : ∀ u, Good (a1.emit (.Init s o)) u := fun u => good_emit a1 _ u (hG1 u) (by simp)
  obtain ⟨a3, e3, p3⟩ := accessAll_spec r K (get env fuel) (.initOf s)
    ((get_ok env r hr fuel).restrict hK) (by simp) (env.init s) _ hl hI2 hO2 (fun u _ => hG2 u)
  obtain ⟨l2, el2, pl2⟩ := p3.step.tr
  refine ⟨o, a3, l1, l2, by simp [callInit, e1, e3], p3.inv, p3.owner,
    fun u => p3.good u (hG2 u), p3.step.p_mono s o hp1, ?_,
    fun x hx => EvOK.weaken (le_refl _) (Nat.zero_le _) (hev1 x hx),
    fun x hx => EvOK.weaken (le_refl _) (Nat.zero_le _) (pl2 x hx), ?_⟩
  · rw [el2]; simp [hl1]
  · intro u x hx
    exact p3.step.p_mono u x (st1.p_mono u x hx)

/-- The constructor returns, and its trace has five segments: the two
`Init()` calls and the three accessor calls of the body separate what nested
calls appended. -/
theorem ctor_spec (env : Env) (r : Slot → Nat) (hr : Ranked env r) (fuel K1 K2 : Nat)
    (hfuel : ∀ s, r s < fuel) (hK1 : K1 ≤ fuel) (hK2 : K2 ≤ fuel)
    (h1 : ∀ t ∈ env.init .enginedevice, r t < K1)
    (h2 : ∀ t ∈ env.init .collection, r t < K2) :
    ∃ a e c tc l1 l2 l3 l4 l5, Application.ctor env fuel = some a ∧ Inv a ∧ Owner a ∧
      (∀ u, Good a u) ∧ a.p_ .enginedevice = some e ∧ a.p_ .collection = some c ∧
      a.p_ .tag_reader_client = some tc ∧
      a.log = .get .application .enginedevice :: l1 ++ .Init .enginedevice e :: l2 ++
        .get .application .collection :: l3 ++ .Init .collection c :: l4 ++
        .get .application .tag_reader_client :: l5 ∧
      (∀ x ∈ l1, EvOK r (r .enginedevice + 1) 0 x) ∧ (∀ x ∈ l2, EvOK r K1 0 x) ∧
      (∀ x ∈ l3, EvOK r (r .collection + 1) 0 x) ∧ (∀ x ∈ l4, EvOK r K2 0 x) ∧
      (∀ x ∈ l5, EvOK r (r .tag_reader_client + 1) 0 x) := by
  obtain ⟨e, a1, l1, l2, e1, hI1, hO1, hG1, hp1, hl1, hv1, hv2, _⟩ :=
    callInit_spec env r hr fuel K1 .enginedevice Application.init (hfuel _) hK1 h1
      inv_init owner_init good_init
  obtain ⟨c, a2, l3, l4, e2, hI2, hO2, hG2, hp2, hl2, hv3, hv4, hm2⟩ :=
    callInit_spec env r hr fuel K2 .collection a1 (hfuel _) hK2 h2 hI1 hO1 hG1
  obtain ⟨tc, a3, l5, e3, hI3, hO3, hG3, hp3, hl3, hv5, st3⟩ :=
    get_top env r hr fuel .application .tag_reader_client a2 (hfuel _) hI2 hO2 hG2
  refine ⟨a3, e, c, tc, l1, l2, l3, l4, l5, by simp [Application.ctor, e1, e2, e3],
    hI3, hO3, hG3, st3.p_mono _ _ (hm2 _ _ hp1), st3.p_mono _ _ hp2, hp3, ?_, hv1, hv2,
    hv3, hv4, fun x hx => EvOK.weaken (le_refl _) (Nat.zero_le _) (hv5 x hx)⟩
  rw [hl3, hl2, hl1]
  simp [Application.init]

theorem evOK_not_appCall {r : Slot → Nat} {K n : Nat} {l : List Event}
    (h : ∀ x ∈ l, EvOK r K n x) (u : Slot) : Event.get .application u ∉ l := by
  intro hm
  have := h _ hm
  simp [EvOK] at this

theorem ctor_live (env : Env) (r : Slot → Nat) (hr : Ranked env r) (fuel : Nat)
    (a : Application) (h : Application.ctor env fuel = some a) : Live a := by
  obtain ⟨F, hF⟩ := exists_fuel r
  have hF1 : ∀ s, r s < fuel + F := fun s => lt_of_lt_of_le (hF s) (Nat.le_add_left _ _)
  obtain ⟨a1, e, c, tc, l1, l2, l3, l4, l5, e1, hI, hO, hG, _, _, _, hl, hv1, hv2, hv3, hv4,
    hv5⟩ := ctor_spec env r hr (fuel + F) (fuel + F) (fuel + F) hF1 (le_refl _) (le_refl _)
      (fun t _ => hF1 t) (fun t _ => hF1 t)
  have := ctor_mono env fuel (fuel + F) (Nat.le_add_right _ _) a h
  rw [e1] at this
  cases this
  refine ⟨hI, hO, hG, ?_⟩
  intro u hu
  rw [hl] at hu
  simp only [List.mem_append, List.mem_cons, List.cons_append, Event.get.injEq, true_and,
    reduceCtorEq, false_or] at hu
  have n1 := evOK_not_appCall hv1 u
  have n2 := evOK_not_appCall hv2 u
  have n3 := evOK_not_appCall hv3 u
  have n4 := evOK_not_appCall hv4 u
  have n5 := evOK_not_appCall hv5 u
  tauto

theorem call_live (env : Env) (r : Slot → Nat) (hr : Ranked env r) (fuel : Nat) (c : Caller)
    (hc : c ≠ .application) (s : Slot) (a : Application) (o : ObjId) (a1 : Application)
    (hL : Live a) (h : get env fuel c s a = some (o, a1)) : Live a1 := by
  obtain ⟨o1, a2, l, e1, hI, hO, hG, _, hl, hv, _⟩ :=
    get_top env r hr (fuel + (r s + 1)) c s a (by omega) hL.inv hL.owner hL.good
  have := get_mono env fuel (fuel + (r s + 1)) (Nat.le_add_right _ _) c s a _ h
  rw [e1] at this
  cases this
  refine ⟨hI, hO, hG, ?_⟩
  intro u hu
  rw [hl] at hu
  simp only [List.mem_append, List.mem_cons, Event.get.injEq] at hu
  rcases hu with hu | hu | hu
  · exact hL.appCalls u hu
  · exact absurd hu.1.symm hc
  · exact absurd hu (evOK_not_appCall hv u)

theorem reachable_live (env : Env) (r : Slot → Nat) (hr : Ranked env r) (a : Application)
    (h : Reachable env a) : Live a := by
  induction h with
  | ctor fuel a h => exact ctor_live env r hr fuel a h
  | call fuel s a o a1 _ h ih => exact call_live env r hr fuel .client (by simp) s a o a1 ih h

/-! ## The destructor -/

@[simp] theorem reset_threads_ (s : Slot) (a : Application) :
    (a.reset s).threads_ = a.threads_ := by
  unfold Application.reset; cases a.p_ s <;> rfl

theorem reset_p_ (s : Slot) (a : Application) :
    (a.reset s).p_ = Function.update a.p_ s none := by
  unfold Application.reset
  cases h : a.p_ s with
  | none => funext u; by_cases e : u = s <;> simp [Function.update_apply, e, h]
  | some o => rfl

theorem reset_log (s : Slot) (a : Application) :
    (a.reset s).log = a.log ++ ((a.p_ s).map Event.destroyed).toList := by
  unfold Application.reset
  cases a.p_ s <;> simp [Application.emit]

theorem quitAll_spec : ∀ (ts : List ThreadId) (a : Application),
    (quitAll ts a).log = a.log ++ ts.map Event.quit ∧ (quitAll ts a).p_ = a.p_ ∧
      (quitAll ts a).threads_ = a.threads_ := by
  intro ts
  induction ts with
  | nil => intro a; simp [quitAll]
  | cons t rest ih =>
    intro a
    obtain ⟨h1, h2, h3⟩ := ih (a.emit (.quit t))
    simp [quitAll, h1, h2, h3]

theorem waitAll_spec : ∀ (ts : List ThreadId) (a : Application),
    (waitAll ts a).log = a.log ++ ts.map Event.wait ∧ (waitAll ts a).p_ = a.p_ ∧
      (waitAll ts a).threads_ = a.threads_ := by
  intro ts
  induction ts with
  | nil => intro a; simp [waitAll]
  | cons t rest ih =>
    intro a
    obtain ⟨h1, h2, h3⟩ :=
      ih ({ a with running := Function.update a.running t false }.emit (.wait t))
    simp only [waitAll]
    exact ⟨by rw [h1]; simp [Application.emit], by rw [h2]; rfl, by rw [h3]; rfl⟩

theorem resetAll_log : ∀ (l : List Slot) (a : Application), l.Nodup →
    (resetAll l a).log = a.log ++ l.filterMap (fun s => (a.p_ s).map Event.destroyed) := by
  intro l
  induction l with
  | nil => intro a _; simp [resetAll]
  | cons s rest ih =>
    intro a hn
    rw [List.nodup_cons] at hn
    simp only [resetAll]
    rw [ih _ hn.2, reset_log, reset_p_, List.append_assoc]
    congr 1
    have : List.filterMap (fun u => Option.map Event.destroyed (Function.update a.p_ s none u))
        rest = List.filterMap (fun u => Option.map Event.destroyed (a.p_ u)) rest := by
      apply List.filterMap_congr
      intro u hu
      have : u ≠ s := by rintro rfl; exact hn.1 hu
      simp [Function.update_noteq this]
    rw [this]
    cases h : a.p_ s <;> simp [List.filterMap_cons, h]

theorem destroy_log (a : Application) : a.destroy.log = a.log ++ teardown a := by
  unfold Application.destroy Application.unwind Application.dtorBody
  simp only []
  rw [resetAll_log _ _ (by decide)]
  obtain ⟨w1, w2, _⟩ := waitAll_spec (quitAll (a.reset .device_manager).threads_
    (a.reset .device_manager)).threads_ (quitAll (a.reset .device_manager).threads_
    (a.reset .device_manager))
  obtain ⟨q1, q2, q3⟩ := quitAll_spec (a.reset .device_manager).threads_
    (a.reset .device_manager)
  rw [w1, w2, q3, q1, q2, reset_log, reset_p_, reset_threads_]
  simp only [teardown, List.append_assoc]
  refine congrArg _ (congrArg _ (congrArg _ (congrArg _ ?_)))
  apply List.filterMap_congr
  intro u _
  by_cases e : u = .device_manager <;> simp [Function.update_apply, e]

theorem teardown_isTeardown (a : Application) : ∀ e ∈ teardown a, e.isTeardown = true := by
  intro e he
  simp only [teardown, List.mem_append, List.mem_map, List.mem_filterMap, Option.mem_toList,
    Option.mem_def, Option.map_eq_some'] at he
  rcases he with ((⟨o, _, rfl⟩ | ⟨t, _, rfl⟩) | ⟨t, _, rfl⟩) | ⟨s, _, h⟩
  · rfl
  · rfl
  · rfl
  · split at h
    · cases h
    · simp only [Option.map_eq_some'] at h
      obtain ⟨o, _, rfl⟩ := h
      rfl

/-! ## Claims on the object graph -/

theorem callN_hit (env : Env) (r : Slot → Nat) (hr : Ranked env r) (fuel : Nat) (s : Slot) :
    ∀ (N : Nat) (a : Application) (o : ObjId), Live a → a.p_ s = some o →
      ∃ a1, callN env fuel s N a = some (List.replicate N o, a1) ∧ Live a1 ∧
        a1.p_ s = some o := by
  intro N
  induction N with
  | zero => intro a o hL hp; exact ⟨a, rfl, hL, hp⟩
  | succ n ih =>
    intro a o hL hp
    have hg := get_hit env fuel .client s a o hp
    have hL1 := call_live env r hr fuel .client (by simp) s a o _ hL hg
    obtain ⟨a2, e2, hL2, hp2⟩ := ih (a.emit (.get .client s)) o hL1 hp
    exact ⟨a2, by simp [callN, hg, e2, List.replicate_succ], hL2, hp2⟩

/-- C1 (idempotent materialisation): on a live `Application`, calling the
accessor of any slot `s` `N ≥ 1` times in a row returns `N` times the same
instance `o`, which is the instance held by the slot afterwards (and the one
it held before, if it was materialised), and the trace then contains exactly
one invocation of the factory of `s`. -/
theorem C1_idempotent_materialisation (env : Env) (r : Slot → Nat) (hr : Ranked env r)
    (a : Application) (ha : Reachable env a) (s : Slot) (N : Nat) (hN : 1 ≤ N) (fuel : Nat)
    (hfuel : r s < fuel) :
    ∃ o a1, callN env fuel s N a = some (List.replicate N o, a1) ∧ a1.p_ s = some o ∧
      a1.log.count (.factory s) = 1 ∧ (∀ x, a.p_ s = some x → x = o) := by
  have hL := reachable_live env r hr a ha
  obtain ⟨n, rfl⟩ : ∃ n, N = n + 1 := ⟨N - 1, by omega⟩
  obtain ⟨o, a1, l, e1, _, _, _, hp1, _, _, st⟩ :=
    get_top env r hr fuel .client s a hfuel hL.inv hL.owner hL.good
  have hL1 := call_live env r hr fuel .client (by simp) s a o a1 hL e1
  obtain ⟨a2, e2, hL2, hp2⟩ := callN_hit env r hr fuel s n a1 o hL1 hp1
  refine ⟨o, a2, by simp [callN, e1, e2, List.replicate_succ], hp2, ?_, ?_⟩
  · have := hL2.good s
    unfold Good at this
    rw [this, hp2]; rfl
  · intro x hx
    have := st.p_mono s x hx
    rw [hp1] at this
    cases this; rfl

theorem C1_idempotent_materialisation_witness :
    Ranked env0 rank0 ∧ Reachable env0 app0 ∧
      ∃ o a1, callN env0 5 .database 3 app0 = some (List.replicate 3 o, a1) ∧
        a1.p_ .database = some o ∧ a1.log.count (.factory .database) = 1 ∧
        (∀ x, app0.p_ .database = some x → x = o) :=
  ⟨by decide, Reachable.ctor 5 app0 rfl,
    C1_idempotent_materialisation env0 rank0 (by decide) app0 (Reachable.ctor 5 app0 rfl)
      .database 3 (by decide) 5 (by decide)⟩

/-- C2 (teardown ordering): when a live `Application` whose device manager
`dm` and database `db` are both materialised is destroyed, the first action of
the teardown is the destruction of `dm`; the destruction of `db` and every
`quit()` of a worker thread come later in the trace, and `dm`, which is not
`db`, is not destroyed a second time. -/
theorem C2_device_manager_destroyed_first (env : Env) (r : Slot → Nat) (hr : Ranked env r)
    (a : Application) (ha : Reachable env a) (dm db : ObjId)
    (hdm : a.p_ .device_manager = some dm) (hdb : a.p_ .database = some db) :
    ∃ rest, a.destroy.log = a.log ++ .destroyed dm :: rest ∧
      (∀ e ∈ a.log, e.isTeardown = false) ∧ Event.destroyed db ∈ rest ∧
      Event.destroyed dm ∉ rest ∧ dm ≠ db ∧ (∀ t ∈ a.threads_, Event.quit t ∈ rest) ∧
      (∀ t, Event.quit t ∈ a.destroy.log → Event.quit t ∈ rest) := by
  have hL := reachable_live env r hr a ha
  have hne : dm ≠ db := by
    rintro rfl
    have := hL.inv.inj _ _ _ hdm hdb
    cases this
  refine ⟨a.threads_.map Event.quit ++ a.threads_.map Event.wait ++
    Slot.all.reverse.filterMap
      (fun s => if s = .device_manager then none else (a.p_ s).map Event.destroyed), ?_,
    hL.inv.live, ?_, ?_, hne, ?_, ?_⟩
  · rw [destroy_log]; simp [teardown, hdm]
  · apply List.mem_append_right
    rw [List.mem_filterMap]
    exact ⟨.database, by decide, by simp [hdb]⟩
  · simp only [List.mem_append, List.mem_map, List.mem_filterMap, reduceCtorEq, and_false,
      exists_false, false_or, not_exists, not_and]
    intro s _ h
    split at h
    · cases h
    · next hs =>
      simp only [Option.map_eq_some', Event.destroyed.injEq] at h
      obtain ⟨x, hx, rfl⟩ := h
      exact hs (hL.inv.inj _ _ _ hx hdm)
  · intro t ht
    simp only [List.mem_append, List.mem_map]
    exact Or.inl (Or.inl ⟨t, ht, rfl⟩)
  · intro t ht
    rw [destroy_log] at ht
    simp only [teardown, hdm, List.mem_append] at ht ⊢
    rcases ht with ht | ((ht | ht) | ht) | ht
    · have := hL.inv.live _ ht
      simp [Event.isTeardown] at this
    · simp at ht
    · exact Or.inl (Or.inl ht)
    · exact Or.inl (Or.inr ht)
    · exact Or.inr ht

theorem C2_device_manager_destroyed_first_witness :
    Ranked env0 rank0 ∧ Reachable env0 app1 ∧ app1.p_ .device_manager = some 5 ∧
      app1.p_ .database = some 2 ∧
      ∃ rest, app1.destroy.log = app1.log ++ .destroyed 5 :: rest ∧
        (∀ e ∈ app1.log, e.isTeardown = false) ∧ Event.destroyed 2 ∈ rest ∧
        Event.destroyed 5 ∉ rest ∧ 5 ≠ 2 ∧ (∀ t ∈ app1.threads_, Event.quit t ∈ rest) ∧
        (∀ t, Event.quit t ∈ app1.destroy.log → Event.quit t ∈ rest) :=
  ⟨by decide, Reachable.call 5 .device_manager app0 5 app1 (Reachable.ctor 5 app0 rfl) rfl,
    rfl, rfl,
    C2_device_manager_destroyed_first env0 rank0 (by decide) app1
      (Reachable.call 5 .device_manager app0 5 app1 (Reachable.ctor 5 app0 rfl) rfl) 5 2
      rfl rfl⟩

theorem evOK_filter_isInit {r : Slot → Nat} {K n : Nat} {l : List Event}
    (h : ∀ x ∈ l, EvOK r K n x) : l.filter Event.isInit = [] := by
  rw [List.filter_eq_nil_iff]
  intro x hx
  have := h x hx
  cases x <;> simp_all [EvOK, Event.isInit]

theorem evOK_not_factory {r : Slot → Nat} {K n : Nat} {l : List Event}
    (h : ∀ x ∈ l, EvOK r K n x) (u : Slot) (hu : K ≤ r u) : Event.factory u ∉ l := by
  intro hm
  have := h _ hm
  simp only [EvOK] at this
  omega

theorem evOK_not_stored {r : Slot → Nat} {K n : Nat} {l : List Event}
    (h : ∀ x ∈ l, EvOK r K n x) (u : Slot) (hu : K ≤ r u) (o : ObjId) :
    Event.stored u o ∉ l := by
  intro hm
  have := h _ hm
  simp only [EvOK] at this
  omega

/-- C3 (eager slots): the constructor returns; on return the three eager slots
hold an instance; the calls of `Init()` in the trace are exactly one on the
instance of `enginedevice` followed by one on the instance of `collection`; and
both lie before the point where the body of the constructor calls
`tag_reader_client()`.  If the code run for the first two slots does not itself
ask for the tag reader client (the rank of `tag_reader_client` is above
theirs), then before that point the factory of `tag_reader_client` is not
invoked and nothing is stored in that slot, and after it both happen. -/
theorem C3_eager_slots (env : Env) (r : Slot → Nat) (hr : Ranked env r) (fuel : Nat)
    (hfuel : ∀ s, r s < fuel) :
    ∃ a ed co tc pre post, Application.ctor env fuel = some a ∧
      a.p_ .enginedevice = some ed ∧ a.p_ .collection = some co ∧
      a.p_ .tag_reader_client = some tc ∧
      a.log.filter Event.isInit = [.Init .enginedevice ed, .Init .collection co] ∧
      a.log = pre ++ .get .application .tag_reader_client :: post ∧
      pre.filter Event.isInit = [.Init .enginedevice ed, .Init .collection co] ∧
      ((∀ u ∈ [Slot.enginedevice, Slot.collection] ++ env.init .enginedevice ++
          env.init .collection, r u < r .tag_reader_client) →
        Event.factory .tag_reader_client ∉ pre ∧
        (∀ x, Event.stored .tag_reader_client x ∉ pre) ∧
        Event.factory .tag_reader_client ∈ post ∧
        Event.stored .tag_reader_client tc ∈ post) := by
  -- the bound on the ranks of the slots asked for by the two `Init()`
  obtain ⟨K, hK, hKlate, hK1, hK2⟩ : ∃ K, K ≤ fuel ∧
      ((∀ u ∈ [Slot.enginedevice, Slot.collection] ++ env.init .enginedevice ++
          env.init .collection, r u < r .tag_reader_client) → K = r .tag_reader_client) ∧
      (∀ t ∈ env.init .enginedevice, r t < K) ∧ (∀ t ∈ env.init .collection, r t < K) := by
    by_cases h : ∀ u ∈ [Slot.enginedevice, Slot.collection] ++ env.init .enginedevice ++
        env.init .collection, r u < r .tag_reader_client
    · exact ⟨r .tag_reader_client, le_of_lt (hfuel _), fun _ => rfl,
        fun t ht => h t (by simp [ht]), fun t ht => h t (by simp [ht])⟩
    · exact ⟨fuel, le_refl _, fun h1 => absurd h1 h, fun t _ => hfuel t, fun t _ => hfuel t⟩
  obtain ⟨a, ed, co, tc, l1, l2, l3, l4, l5, e1, hI, _, hG, hp1, hp2, hp3, hl, hv1, hv2, hv3,
    hv4, hv5⟩ := ctor_spec env r hr fuel K K hfuel hK hK hK1 hK2
  have f1 := evOK_filter_isInit hv1
  have f2 := evOK_filter_isInit hv2
  have f3 := evOK_filter_isInit hv3
  have f4 := evOK_filter_isInit hv4
  have f5 := evOK_filter_isInit hv5
  refine ⟨a, ed, co, tc, _, l5, e1, hp1, hp2, hp3, ?_, hl, ?_, ?_⟩
  · rw [hl]
    simp [List.filter_cons, f1, f2, f3, f4, f5, Event.isInit]
  · simp [List.filter_cons, f1, f2, f3, f4, Event.isInit]
  intro hlate
  have hed : r .enginedevice < r .tag_reader_client := hlate _ (by simp)
  have hco : r .collection < r .tag_reader_client := hlate _ (by simp)
  have hKe := hKlate hlate
  subst hKe
  have hw1 : ∀ x ∈ l1, EvOK r (r .tag_reader_client) 0 x :=
    fun x hx => EvOK.weaken (by omega) (le_refl _) (hv1 x hx)
  have hw3 : ∀ x ∈ l3, EvOK r (r .tag_reader_client) 0 x :=
    fun x hx => EvOK.weaken (by omega) (le_refl _) (hv3 x hx)
  have hpre : ∀ x, (x = Event.factory .tag_reader_client ∨
      ∃ o, x = Event.stored .tag_reader_client o) →
      x ∉ Event.get .application .enginedevice :: l1 ++ .Init .enginedevice ed :: l2 ++
        .get .application .collection :: l3 ++ .Init .collection co :: l4 := by
    intro x hx hm
    simp only [List.mem_append, List.mem_cons, List.cons_append] at hm
    have key : ∀ l : List Event, (∀ y ∈ l, EvOK r (r .tag_reader_client) 0 y) → x ∉ l := by
      intro l hl
      rcases hx with rfl | ⟨o, rfl⟩
      · exact evOK_not_factory hl _ (le_refl _)
      · exact evOK_not_stored hl _ (le_refl _) o
    have n1 := key l1 hw1
    have n2 := key l2 hv2
    have n3 := key l3 hw3
    have n4 := key l4 hv4
    rcases hx with rfl | ⟨o, rfl⟩ <;> simp_all
  have hfac : Event.factory .tag_reader_client ∈ a.log := by
    have := hG .tag_reader_client
    unfold Good at this
    rw [hp3] at this
    apply List.count_pos_iff.mp
    rw [this]; simp
  have hsto := hI.storedLog _ _ hp3
  refine ⟨hpre _ (Or.inl rfl), fun x => hpre _ (Or.inr ⟨x, rfl⟩), ?_, ?_⟩
  · rw [hl, List.mem_append, List.mem_cons] at hfac
    rcases hfac with h | h | h
    · exact absurd h (hpre _ (Or.inl rfl))
    · cases h
    · exact h
  · rw [hl, List.mem_append, List.mem_cons] at hsto
    rcases hsto with h | h | h
    · exact absurd h (hpre _ (Or.inr ⟨tc, rfl⟩))
    · cases h
    · exact h

theorem C3_eager_slots_witness :
    Ranked env0 rank0 ∧ (∀ s, rank0 s < 5) ∧
      (∀ u ∈ [Slot.enginedevice, Slot.collection] ++ env0.init .enginedevice ++
        env0.init .collection, rank0 u < rank0 .tag_reader_client) ∧
      ∃ a ed co tc pre post, Application.ctor env0 5 = some a ∧
        a.p_ .enginedevice = some ed ∧ a.p_ .collection = some co ∧
        a.p_ .tag_reader_client = some tc ∧
        a.log.filter Event.isInit = [.Init .enginedevice ed, .Init .collection co] ∧
        a.log = pre ++ .get .application .tag_reader_client :: post ∧
        pre.filter Event.isInit = [.Init .enginedevice ed, .Init .collection co] ∧
        ((∀ u ∈ [Slot.enginedevice, Slot.collection] ++ env0.init .enginedevice ++
            env0.init .collection, rank0 u < rank0 .tag_reader_client) →
          Event.factory .tag_reader_client ∉ pre ∧
          (∀ x, Event.stored .tag_reader_client x ∉ pre) ∧
          Event.factory .tag_reader_client ∈ post ∧
          Event.stored .tag_reader_client tc ∈ post) :=
  ⟨by decide, by decide, by decide, C3_eager_slots env0 rank0 (by decide) 5 (by decide)⟩

/-- C4 (lazy until needed): in the whole trace of a run (construction, any
accessor calls by clients, destruction) every invocation of a factory directly
follows a call of the accessor of the same slot; so a run that never calls
`cover_providers()`, from any caller, never invokes its factory.  The body of
the constructor calls the accessors of `enginedevice`, `collection` and
`tag_reader_client` only, and the destruction appends teardown actions only
(no accessor call and no factory invocation). -/
theorem C4_lazy_until_needed (env : Env) (r : Slot → Nat) (hr : Ranked env r)
    (a : Application) (ha : Reachable env a) :
    FactoryAfterGet a.destroy.log ∧
      ((∀ c, Event.get c .cover_providers ∉ a.destroy.log) →
        Event.factory .cover_providers ∉ a.destroy.log) ∧
      (∀ u, Event.get .application u ∈ a.destroy.log →
        u = .enginedevice ∨ u = .collection ∨ u = .tag_reader_client) ∧
      ∃ l, a.destroy.log = a.log ++ l ∧ ∀ e ∈ l, e.isTeardown = true := by
  have hL := reachable_live env r hr a ha
  have hfag : FactoryAfterGet a.destroy.log := by
    rw [destroy_log]
    apply fag_append _ _ hL.inv.fag
    intro i u h
    have := teardown_isTeardown a _ (List.getElem?_mem h)
    simp [Event.isTeardown] at this
  refine ⟨hfag, ?_, ?_, teardown a, destroy_log a, teardown_isTeardown a⟩
  · intro hno hmem
    obtain ⟨i, hi⟩ := List.mem_iff_getElem?.mp hmem
    obtain ⟨c, _, hc⟩ := hfag i _ hi
    exact hno c (List.getElem?_mem hc)
  · intro u hu
    rw [destroy_log, List.mem_append] at hu
    rcases hu with hu | hu
    · exact hL.appCalls u hu
    · have := teardown_isTeardown a _ hu
      simp [Event.isTeardown] at this

theorem C4_lazy_until_needed_witness :
    Ranked env0 rank0 ∧ Reachable env0 app0 ∧
      FactoryAfterGet app0.destroy.log ∧
      ((∀ c, Event.get c .cover_providers ∉ app0.destroy.log) →
        Event.factory .cover_providers ∉ app0.destroy.log) ∧
      (∀ u, Event.get .application u ∈ app0.destroy.log →
        u = .enginedevice ∨ u = .collection ∨ u = .tag_reader_client) ∧
      ∃ l, app0.destroy.log = app0.log ++ l ∧ ∀ e ∈ l, e.isTeardown = true :=
  ⟨by decide, Reachable.ctor 5 app0 rfl,
    C4_lazy_until_needed env0 rank0 (by decide) app0 (Reachable.ctor 5 app0 rfl)⟩

/-- C5 (playlist backend on the database thread): on a live `Application`
whose playlist backend is not yet materialised, `playlist_backend()` returns an
instance `b` allocated during the call; afterwards the database is materialised (with the instance it
already had, if any), `b` has been moved to the thread of the database, which
is a running worker thread of `threads_`; and no thread was created for `b`:
there are exactly as many worker threads as materialised slots among
`tag_reader_client`, `database` and `album_cover_loader`, each the thread of
the instance of one of them. -/
theorem C5_playlist_backend_thread (env : Env) (r : Slot → Nat) (hr : Ranked env r)
    (a : Application) (ha : Reachable env a) (hn : a.p_ .playlist_backend = none)
    (fuel : Nat) (hfuel : r .playlist_backend < fuel) :
    ∃ b d a1, get env fuel .client .playlist_backend a = some (b, a1) ∧ a.objects ≤ b ∧
      a1.p_ .playlist_backend = some b ∧ a1.p_ .database = some d ∧
      (∀ d0, a.p_ .database = some d0 → d0 = d) ∧
      a1.thread b = a1.thread d ∧ Event.moveToThread b (a1.thread d) ∈ a1.log ∧
      a1.thread d ∈ a1.threads_ ∧ a1.running (a1.thread d) = true ∧
      a1.threads_.length = (threadSlots.filter (fun s => (a1.p_ s).isSome)).length ∧
      (∀ t ∈ a1.threads_, ∃ s o, s.ownsThread = true ∧ a1.p_ s = some o ∧ a1.thread o = t) := by
  have hL := reachable_live env r hr a ha
  obtain ⟨b, a1, l, e1, hI, hO, _, hp1, _, _, st⟩ :=
    get_top env r hr fuel .client .playlist_backend a hfuel hL.inv hL.owner hL.good
  obtain ⟨d, hd, hbd⟩ := hI.pb b hp1
  have hth := hI.affinity .database d rfl hd
  refine ⟨b, d, a1, e1, ?_, hp1, hd, ?_, hbd, ?_, hth, hI.running _ hth, hO.2, hO.1⟩
  · rcases st.p_new _ b hp1 with h | h
    · rw [emit_p_, hn] at h; cases h
    · exact h
  · intro d0 h0
    have := st.p_mono .database d0 h0
    rw [hd] at this
    cases this; rfl
  · rw [← hbd]; exact (hI.pbMove b hp1).2

theorem C5_playlist_backend_thread_witness :
    Ranked env0 rank0 ∧ Reachable env0 app0 ∧ app0.p_ .playlist_backend = none ∧
      ∃ b d a1, get env0 5 .client .playlist_backend app0 = some (b, a1) ∧
        app0.objects ≤ b ∧ a1.p_ .playlist_backend = some b ∧ a1.p_ .database = some d ∧
        (∀ d0, app0.p_ .database = some d0 → d0 = d) ∧
        a1.thread b = a1.thread d ∧ Event.moveToThread b (a1.thread d) ∈ a1.log ∧
        a1.thread d ∈ a1.threads_ ∧ a1.running (a1.thread d) = true ∧
        a1.threads_.length = (threadSlots.filter (fun s => (a1.p_ s).isSome)).length ∧
        (∀ t ∈ a1.threads_, ∃ s o, s.ownsThread = true ∧ a1.p_ s = some o ∧
          a1.thread o = t) :=
  ⟨by decide, Reachable.ctor 5 app0 rfl, rfl,
    C5_playlist_backend_thread env0 rank0 (by decide) app0 (Reachable.ctor 5 app0 rfl) rfl 5
      (by decide)⟩

theorem count_quit_map (ts : List ThreadId) (t : ThreadId) :
    (ts.map Event.quit).count (.quit t) = ts.count t :=
  List.count_map_of_injective ts Event.quit (fun _ _ h => by injection h) t

theorem count_wait_map (ts : List ThreadId) (t : ThreadId) :
    (ts.map Event.wait).count (.wait t) = ts.count t :=
  List.count_map_of_injective ts Event.wait (fun _ _ h => by injection h) t

theorem count_zero_of_forall (l : List Event) (e : Event) (h : ∀ x ∈ l, x ≠ e) :
    l.count e = 0 := by
  rw [List.count_eq_zero]
  intro hm; exact h e hm rfl

/-- C6 (quit all, then wait for all): the destruction of a live `Application`
appends to the trace some destructions, then `quit()` for each thread of
`threads_` in order, then `wait()` for each of them in the same order, then
destructions.  `threads_` lists the created threads in creation order without
repetition, so every created thread gets exactly one `quit()` and exactly one
`wait()`, and no `wait()` occurs before the last `quit()`. -/
theorem C6_quit_all_then_wait_all (env : Env) (r : Slot → Nat) (hr : Ranked env r)
    (a : Application) (ha : Reachable env a) :
    ∃ pre post, a.destroy.log = a.log ++ pre ++ a.threads_.map Event.quit ++
        a.threads_.map Event.wait ++ post ∧
      (∀ e ∈ pre ++ post, ∃ o, e = Event.destroyed o) ∧
      a.threads_ = createdThreads a.log ∧ a.threads_.Nodup ∧
      (∀ t ∈ createdThreads a.log, a.destroy.log.count (.quit t) = 1 ∧
        a.destroy.log.count (.wait t) = 1) ∧
      (∀ t, Event.wait t ∉ a.log ++ pre ++ a.threads_.map Event.quit) := by
  have hL := reachable_live env r hr a ha
  have hnd : a.threads_.Nodup := by rw [hL.inv.thr_ids]; exact List.nodup_range' _ _
  have hpre : ∀ e ∈ ((a.p_ .device_manager).map Event.destroyed).toList,
      ∃ o, e = Event.destroyed o := by
    intro e he
    simp only [Option.mem_toList, Option.mem_def, Option.map_eq_some'] at he
    obtain ⟨o, _, rfl⟩ := he
    exact ⟨o, rfl⟩
  have hpost : ∀ e ∈ Slot.all.reverse.filterMap
      (fun s => if s = .device_manager then none else (a.p_ s).map Event.destroyed),
      ∃ o, e = Event.destroyed o := by
    intro e he
    rw [List.mem_filterMap] at he
    obtain ⟨s, _, h⟩ := he
    split at h
    · cases h
    · simp only [Option.map_eq_some'] at h
      obtain ⟨o, _, rfl⟩ := h
      exact ⟨o, rfl⟩
  have hlive : ∀ (e : Event), e.isTeardown = true → a.log.count e = 0 := by
    intro e he
    apply count_zero_of_forall
    rintro x hx rfl
    rw [hL.inv.live x hx] at he; cases he
  refine ⟨((a.p_ .device_manager).map Event.destroyed).toList,
    Slot.all.reverse.filterMap
      (fun s => if s = .device_manager then none else (a.p_ s).map Event.destroyed),
    by rw [destroy_log]; simp only [teardown, List.append_assoc], ?_,
    hL.inv.created.symm, hnd, ?_, ?_⟩
  · intro e he
    rcases List.mem_append.mp he with h | h
    · exact hpre e h
    · exact hpost e h
  · intro t ht
    rw [hL.inv.created] at ht
    have c1 : a.threads_.count t = 1 := List.count_eq_one_of_mem hnd ht
    have z1 : ∀ e : Event, (∀ o, e ≠ Event.destroyed o) →
        (((a.p_ .device_manager).map Event.destroyed).toList).count e = 0 := by
      intro e he
      apply count_zero_of_forall
      rintro x hx rfl
      obtain ⟨o, ho⟩ := hpre _ hx
      exact he o ho
    have z2 : ∀ e : Event, (∀ o, e ≠ Event.destroyed o) →
        (Slot.all.reverse.filterMap
          (fun s => if s = .device_manager then none
            else (a.p_ s).map Event.destroyed)).count e = 0 := by
      intro e he
      apply count_zero_of_forall
      rintro x hx rfl
      obtain ⟨o, ho⟩ := hpost _ hx
      exact he o ho
    have z3 : (a.threads_.map Event.wait).count (.quit t) = 0 := by
      apply count_zero_of_forall
      intro x hx
      rw [List.mem_map] at hx
      obtain ⟨u, _, rfl⟩ := hx
      simp
    have z4 : (a.threads_.map Event.quit).count (.wait t) = 0 := by
      apply count_zero_of_forall
      intro x hx
      rw [List.mem_map] at hx
      obtain ⟨u, _, rfl⟩ := hx
      simp
    rw [destroy_log]
    simp only [teardown, List.count_append]
    rw [hlive (.quit t) rfl, hlive (.wait t) rfl, z1 (.quit t) (by simp),
      z1 (.wait t) (by simp), z2 (.quit t) (by simp), z2 (.wait t) (by simp), z3, z4,
      count_quit_map, count_wait_map, c1]
    exact ⟨rfl, rfl⟩
  · intro t ht
    simp only [List.mem_append, List.mem_map] at ht
    rcases ht with (h | h) | ⟨u, _, h⟩
    · have := hL.inv.live _ h
      simp [Event.isTeardown] at this
    · obtain ⟨o, ho⟩ := hpre _ h
      cases ho
    · cases h

theorem C6_quit_all_then_wait_all_witness :
    Ranked env0 rank0 ∧ Reachable env0 app0 ∧
      ∃ pre post, app0.destroy.log = app0.log ++ pre ++ app0.threads_.map Event.quit ++
          app0.threads_.map Event.wait ++ post ∧
        (∀ e ∈ pre ++ post, ∃ o, e = Event.destroyed o) ∧
        app0.threads_ = createdThreads app0.log ∧ app0.threads_.Nodup ∧
        (∀ t ∈ createdThreads app0.log, app0.destroy.log.count (.quit t) = 1 ∧
          app0.destroy.log.count (.wait t) = 1) ∧
        (∀ t, Event.wait t ∉ app0.log ++ pre ++ app0.threads_.map Event.quit) :=
  ⟨by decide, Reachable.ctor 5 app0 rfl,
    C6_quit_all_then_wait_all env0 rank0 (by decide) app0 (Reachable.ctor 5 app0 rfl)⟩

/-- C7, as stated, fails: in the trace of the constructor (in the environment
where no outside code calls an accessor) the tag reader client, object 2, is
moved to thread 1 by the action at index 15, and thread 1 is started by the
action at index 16, not before. -/
theorem C7_counterexample :
    ∃ a, Application.ctor envNone 1 = some a ∧ a.p_ .tag_reader_client = some 2 ∧
      a.log[15]? = some (.moveToThread 2 1) ∧ Event.threadStart 1 ∉ a.log.take 15 ∧
      a.log[16]? = some (.threadStart 1) ∧ ¬ StartedBeforeMove a.log :=
  ⟨(Application.ctor envNone 1).getD Application.init, rfl, rfl, rfl, by decide, rfl,
    fun h => absurd (h 15 2 1 rfl) (by decide)⟩

/-- C7, amended: in the trace of a live `Application` every relocation targets
a thread that was started before or that is started by the very next action.
The instance of `playlist_backend` has been moved to the thread of the
database, and each time it was moved the target had been started before.  The
instances of `tag_reader_client`, `database` and `album_cover_loader` have been
moved to their thread, which is in `threads_`, and each time the target had
not been started before and was started by the very next action. -/
theorem C7_relocation_targets (env : Env) (r : Slot → Nat) (hr : Ranked env r)
    (a : Application) (ha : Reachable env a) :
    MovesOK a.log ∧
      (∀ b, a.p_ .playlist_backend = some b →
        MovedToStarted a.log b ∧
          ∃ d, a.p_ .database = some d ∧ Event.moveToThread b (a.thread d) ∈ a.log) ∧
      (∀ s o, s.ownsThread = true → a.p_ s = some o →
        MovedThenStarted a.log o ∧ Event.moveToThread o (a.thread o) ∈ a.log ∧
          a.thread o ∈ a.threads_) := by
  have hL := reachable_live env r hr a ha
  refine ⟨hL.inv.moves, ?_, ?_⟩
  · intro b hb
    obtain ⟨d, hd, hbd⟩ := hL.inv.pb b hb
    exact ⟨(hL.inv.pbMove b hb).1, d, hd, by rw [← hbd]; exact (hL.inv.pbMove b hb).2⟩
  · intro s o hs ho
    exact ⟨(hL.inv.relocated s o hs ho).1, (hL.inv.relocated s o hs ho).2,
      hL.inv.affinity s o hs ho⟩

theorem C7_relocation_targets_witness :
    Ranked env0 rank0 ∧ Reachable env0 app0 ∧ MovesOK app0.log ∧
      (∀ b, app0.p_ .playlist_backend = some b →
        MovedToStarted app0.log b ∧
          ∃ d, app0.p_ .database = some d ∧
            Event.moveToThread b (app0.thread d) ∈ app0.log) ∧
      (∀ s o, s.ownsThread = true → app0.p_ s = some o →
        MovedThenStarted app0.log o ∧ Event.moveToThread o (app0.thread o) ∈ app0.log ∧
          app0.thread o ∈ app0.threads_) :=
  ⟨by decide, Reachable.ctor 5 app0 rfl,
    C7_relocation_targets env0 rank0 (by decide) app0 (Reachable.ctor 5 app0 rfl)⟩

/-- C8 (the thread list): in every live state `threads_` is the list of the
threads created so far in creation order, has no repetition, and each of its
threads has been started and is running; the instances of the four relocated
slots live on a thread of `threads_`.  `MoveToNewThread` creates one thread,
which was not in `threads_`, moves the object to it, starts it and appends it
to `threads_`; `MoveToThread` creates no thread, leaves `threads_` unchanged
and moves the object to the given thread. -/
theorem C8_threads_list (env : Env) (r : Slot → Nat) (hr : Ranked env r)
    (a : Application) (ha : Reachable env a) :
    a.threads_ = createdThreads a.log ∧ a.threads_.Nodup ∧
      (∀ t ∈ a.threads_, a.running t = true ∧ Event.threadStart t ∈ a.log) ∧
      (∀ s o, (s.ownsThread = true ∨ s = .playlist_backend) → a.p_ s = some o →
        a.thread o ∈ a.threads_) ∧
      (∀ o, (a.MoveToNewThread o).threads_ = a.threads_ ++ [a.qthreads + 1] ∧
        a.qthreads + 1 ∉ a.threads_ ∧
        createdThreads (a.MoveToNewThread o).log = createdThreads a.log ++ [a.qthreads + 1] ∧
        (a.MoveToNewThread o).thread o = a.qthreads + 1 ∧
        (a.MoveToNewThread o).running (a.qthreads + 1) = true) ∧
      (∀ o t, (a.MoveToThread o t).threads_ = a.threads_ ∧
        createdThreads (a.MoveToThread o t).log = createdThreads a.log ∧
        (a.MoveToThread o t).thread o = t) := by
  have hL := reachable_live env r hr a ha
  refine ⟨hL.inv.created.symm, by rw [hL.inv.thr_ids]; exact List.nodup_range' _ _,
    fun t ht => ⟨hL.inv.running t ht, hL.inv.started t ht⟩, ?_, ?_, ?_⟩
  · intro s o hs ho
    rcases hs with hs | rfl
    · exact hL.inv.affinity s o hs ho
    · obtain ⟨d, hd, hbd⟩ := hL.inv.pb o ho
      rw [hbd]; exact hL.inv.affinity .database d rfl hd
  · intro o
    refine ⟨rfl, ?_, by simp [createdThreads_append, createdThreads], by simp, by simp⟩
    rw [hL.inv.thr_ids, List.mem_range']
    rintro ⟨i, hi, h⟩
    omega
  · intro o t
    exact ⟨rfl, by simp [createdThreads_append, createdThreads], by simp⟩

theorem C8_threads_list_witness :
    Ranked env0 rank0 ∧ Reachable env0 app1 ∧
      app1.threads_ = createdThreads app1.log ∧ app1.threads_.Nodup ∧
      (∀ t ∈ app1.threads_, app1.running t = true ∧ Event.threadStart t ∈ app1.log) ∧
      (∀ s o, (s.ownsThread = true ∨ s = .playlist_backend) → app1.p_ s = some o →
        app1.thread o ∈ app1.threads_) ∧
      (∀ o, (app1.MoveToNewThread o).threads_ = app1.threads_ ++ [app1.qthreads + 1] ∧
        app1.qthreads + 1 ∉ app1.threads_ ∧
        createdThreads (app1.MoveToNewThread o).log =
          createdThreads app1.log ++ [app1.qthreads + 1] ∧
        (app1.MoveToNewThread o).thread o = app1.qthreads + 1 ∧
        (app1.MoveToNewThread o).running (app1.qthreads + 1) = true) ∧
      (∀ o t, (app1.MoveToThread o t).threads_ = app1.threads_ ∧
        createdThreads (app1.MoveToThread o t).log = createdThreads app1.log ∧
        (app1.MoveToThread o t).thread o = t) :=
  ⟨by decide, Reachable.call 5 .device_manager app0 5 app1 (Reachable.ctor 5 app0 rfl) rfl,
    C8_threads_list env0 rank0 (by decide) app1
      (Reachable.call 5 .device_manager app0 5 app1 (Reachable.ctor 5 app0 rfl) rfl)⟩

/-! ## Claims on the widget and on the language name -/

/-- C9, as stated, fails: in large mode with "fit cover to width" switched on
and a widget 300 wide, `UpdateHeight` sets the desired cover height to 300 and
`DrawContents` draws the cover 300 high, above `kMaxCoverSize` = 260. -/
theorem C9_counterexample :
    wideFit.mode_ = .LargeSongDetails ∧ wideFit.UpdateHeight.desired_height_ = 300 ∧
      wideFit.cover_size = 300 ∧ ¬ wideFit.UpdateHeight.desired_height_ ≤ kMaxCoverSize ∧
      ¬ wideFit.cover_size ≤ kMaxCoverSize := by
  decide

/-- C9, amended: in large mode, when `fit_width_` is off the desired cover
height after `UpdateHeight` is the smaller of `kMaxCoverSize` = 260 and the
width, and the cover size of `DrawContents` is the same, so both are at most
260 for every width; when `fit_width_` is on both are the width of the widget. -/
theorem C9_cover_height (w : PlayingWidget) (hm : w.mode_ = .LargeSongDetails) :
    if w.fit_width_ = true then
      w.UpdateHeight.desired_height_ = w.width ∧ w.cover_size = w.width
    else
      w.UpdateHeight.desired_height_ = min kMaxCoverSize w.width ∧
        w.cover_size = min kMaxCoverSize w.width ∧
        w.UpdateHeight.desired_height_ ≤ 260 ∧ w.cover_size ≤ 260 := by
  have hd : w.UpdateHeight.desired_height_ =
      if w.fit_width_ = true then w.width else min kMaxCoverSize w.width := by
    simp only [PlayingWidget.UpdateHeight, hm]
    split <;> rfl
  rw [hd]
  cases hf : w.fit_width_ <;> simp [PlayingWidget.cover_size, hf, kMaxCoverSize]

theorem C9_cover_height_witness :
    wideNoFit.mode_ = .LargeSongDetails ∧
      wideNoFit.UpdateHeight.desired_height_ = min kMaxCoverSize wideNoFit.width ∧
      wideNoFit.cover_size = min kMaxCoverSize wideNoFit.width ∧
      wideNoFit.UpdateHeight.desired_height_ ≤ 260 ∧ wideNoFit.cover_size ≤ 260 :=
  ⟨rfl, C9_cover_height wideNoFit rfl⟩

theorem indexOfFrom_spec (s : List Char) (ch : Char) (i : Nat) :
    (ch ∉ s ∧ QString.indexOfFrom s ch i = -1) ∨
    (ch ∈ s ∧ QString.indexOfFrom s ch i =
      ((i + (s.takeWhile (fun c => c != ch)).length : Nat) : Int)) := by
  induction s generalizing i with
  | nil => simp [QString.indexOfFrom]
  | cons c cs ih =>
    by_cases h : c = ch
    · subst h; simp [QString.indexOfFrom, List.takeWhile]
    · rcases ih (i + 1) with ⟨h1, h2⟩ | ⟨h1, h2⟩
      · left; simp [QString.indexOfFrom, h, h1, h2, Ne.symm h]
      · right
        have : (c != ch) = true := by simpa using h
        simp [QString.indexOfFrom, h, h1, h2, List.takeWhile, this]
        omega

theorem takeWhile_length_lt (L : List Char) (ch : Char) (h : ch ∈ L) :
    (L.takeWhile (fun c => c != ch)).length < L.length := by
  induction L with
  | nil => cases h
  | cons c cs ih =>
    by_cases e : c = ch
    · subst e; simp [List.takeWhile]
    · have : (c != ch) = true := by simpa using e
      have hm : ch ∈ cs := by
        rcases List.mem_cons.mp h with h1 | h1
        · exact absurd h1.symm e
        · exact h1
      simp [List.takeWhile, this, ih hm]

theorem lwr_eq_takeWhile (L : QString) :
    language_without_region L = L.takeWhile (fun c => c != '_') := by
  unfold language_without_region QString.indexOf QString.left
  rcases indexOfFrom_spec L '_' 0 with ⟨h1, h2⟩ | ⟨h1, h2⟩
  · simp only [h2]
    simp
    symm
    rw [List.takeWhile_eq_self_iff]
    intro c hc
    simp
    rintro rfl; exact h1 hc
  · simp only [h2]
    have hlen := takeWhile_length_lt L '_' h1
    have hne : ((0 + (List.takeWhile (fun c => c != '_') L).length : Nat) : Int) ≠ -1 := by
      omega
    rw [if_pos hne]
    rw [if_neg (by push_neg; constructor <;> omega)]
    simp only [Nat.zero_add, Int.toNat_ofNat]
    exact (List.prefix_iff_eq_take.mp (List.takeWhile_prefix (fun c => c != '_') (l := L))).symm

theorem takeWhile_ne_split (L : List Char) (ch : Char) (h : ch ∈ L) :
    ∃ post, L = L.takeWhile (fun c => c != ch) ++ ch :: post := by
  induction L with
  | nil => cases h
  | cons c cs ih =>
    by_cases e : c = ch
    · subst e; exact ⟨cs, by simp [List.takeWhile]⟩
    · have : (c != ch) = true := by simpa using e
      have hm : ch ∈ cs := by
        rcases List.mem_cons.mp h with h1 | h1
        · exact absurd h1.symm e
        · exact h1
      obtain ⟨post, hp⟩ := ih hm
      exact ⟨post, by simp only [List.takeWhile, this, List.cons_append]; rw [← hp]⟩

/-- C10 (language without region): for every language name `L` the result is
the longest initial segment of `L` without `'_'`, that is `L` itself when `L`
has no `'_'` and otherwise the part of `L` before its first `'_'`; the result
is an initial segment of `L`, contains no `'_'`, and is a fixed point of the
operation. -/
theorem C10_language_without_region (L : QString) :
    language_without_region L = L.takeWhile (fun c => c != '_') ∧
      (if '_' ∈ L then ∃ post, L = language_without_region L ++ '_' :: post
        else language_without_region L = L) ∧
      language_without_region L <+: L ∧ '_' ∉ language_without_region L ∧
      language_without_region (language_without_region L) = language_without_region L := by
  have hno : '_' ∉ L.takeWhile (fun c => c != '_') := by
    intro hm
    have := List.mem_takeWhile_imp hm
    simp at this
  have hfix : ∀ M : List Char, '_' ∉ M → M.takeWhile (fun c => c != '_') = M := by
    intro M hM
    rw [List.takeWhile_eq_self_iff]
    intro c hc
    simp only [bne_iff_ne, ne_eq]
    rintro rfl; exact hM hc
  refine ⟨lwr_eq_takeWhile L, ?_, ?_, ?_, ?_⟩
  · split
    · next h => rw [lwr_eq_takeWhile]; exact takeWhile_ne_split L '_' h
    · next h => rw [lwr_eq_takeWhile]; exact hfix L h
  · rw [lwr_eq_takeWhile]; exact List.takeWhile_prefix _
  · rw [lwr_eq_takeWhile]; exact hno
  · rw [lwr_eq_takeWhile, lwr_eq_takeWhile]; exact hfix _ hno

/-! ## The flags `active_` and `playing_` of the widget -/

theorem sameFlags_ite (w : Widget) (c : Prop) [Decidable c] (a b : Widget)
    (ha : w.SameFlags a) (hb : w.SameFlags b) : w.SameFlags (if c then a else b) := by
  split
  · exact ha
  · exact hb

theorem sameFlags_trans {w v u : Widget} (h1 : w.SameFlags v) (h2 : v.SameFlags u) :
    w.SameFlags u :=
  ⟨h2.1.trans h1.1, h2.2.trans h1.2⟩

theorem base_updateHeight_flags (g : PlayingWidget) :
    g.UpdateHeight.active_ = g.active_ ∧ g.UpdateHeight.playing_ = g.playing_ := by
  unfold PlayingWidget.UpdateHeight
  lift_lets
  intro desired w1
  have h1 : w1.active_ = g.active_ ∧ w1.playing_ = g.playing_ := by
    cases hm : g.mode_ <;> simp [w1, hm]
  split
  · exact h1
  · exact h1

theorem updateHeight_flags (w : Widget) : w.SameFlags w.UpdateHeight :=
  base_updateHeight_flags w.toPlayingWidget

theorem adjustDirection_flags (w : Widget) : w.SameFlags w.adjustDirection := by
  unfold Widget.adjustDirection
  lift_lets
  intro w1
  have h1 : w.SameFlags w1 := sameFlags_ite w _ _ _ ⟨rfl, rfl⟩ ⟨rfl, rfl⟩
  exact sameFlags_ite w _ _ _ ⟨h1.1, h1.2⟩ h1

theorem setVisible_flags (visible : Bool) (w : Widget) :
    w.SameFlags (w.SetVisible visible) := by
  unfold Widget.SetVisible
  exact sameFlags_ite w _ _ _ (adjustDirection_flags w)
    (sameFlags_ite w _ _ _ ⟨rfl, rfl⟩ ⟨rfl, rfl⟩)

theorem setHeight_flags (height : Int) (w : Widget) : w.SameFlags (w.SetHeight height) := by
  unfold Widget.SetHeight
  lift_lets
  intro w1 w2 w3
  have h1 : w.SameFlags w1 := ⟨rfl, rfl⟩
  have h2 : w.SameFlags w2 := sameFlags_ite w _ _ _ ⟨h1.1, h1.2⟩ h1
  have h3 : w.SameFlags w3 := sameFlags_ite w _ _ _ ⟨h2.1, h2.2⟩ h2
  exact sameFlags_ite w _ _ _ (sameFlags_trans h3 (adjustDirection_flags w3)) h3

theorem updateDetailsText_flags (tk : Toolkit) (w : Widget) :
    w.SameFlags (w.UpdateDetailsText tk) := by
  unfold Widget.UpdateDetailsText
  lift_lets
  intro w1
  have h1 : w.SameFlags w1 := ⟨rfl, rfl⟩
  split
  · exact sameFlags_trans h1 (updateHeight_flags w1)
  · exact h1

theorem setImage_flags (image : QImage) (tk : Toolkit) (w : Widget) :
    w.SameFlags (w.SetImage image tk) := by
  unfold Widget.SetImage
  lift_lets
  intro psize_height w1 w2 w3 w4
  have h1 : w.SameFlags w1 := sameFlags_ite w _ _ _ ⟨rfl, rfl⟩ ⟨rfl, rfl⟩
  have h2 : w.SameFlags w2 := ⟨h1.1, h1.2⟩
  have h3 : w.SameFlags w3 := sameFlags_trans h2 (updateDetailsText_flags tk w2)
  have h4 : w.SameFlags w4 := sameFlags_trans h3 (setVisible_flags true w3)
  exact sameFlags_ite w _ _ _ (sameFlags_ite w _ _ _ ⟨h4.1, h4.2⟩ h4) h3

theorem getCoverAutomatically_flags (tk : Toolkit) (w : Widget) :
    w.SameFlags (w.GetCoverAutomatically tk) := by
  unfold Widget.GetCoverAutomatically
  exact sameFlags_ite w _ _ _ ⟨rfl, rfl⟩ ⟨rfl, rfl⟩

theorem ctor_flags (mode : Mode) (fit_width : Bool) (width height details0 total0 desired0 : Int)
    (tk : Toolkit) (song0 : Song) :
    (Widget.ctor mode fit_width width height details0 total0 desired0 tk song0).active_ = false ∧
      (Widget.ctor mode fit_width width height details0 total0 desired0 tk song0).playing_ =
        false := by
  unfold Widget.ctor
  lift_lets
  intro w0 w1 w2 w3 w4
  have h0 : w0.active_ = false ∧ w0.playing_ = false := ⟨rfl, rfl⟩
  have h1 : w0.SameFlags w1 := setHeight_flags 0 w0
  have h2 : w0.SameFlags w2 := ⟨h1.1, h1.2⟩
  have h3 : w0.SameFlags w3 :=
    sameFlags_ite w0 _ _ _ (sameFlags_trans h2 (updateHeight_flags _)) h2
  have h4 : w0.SameFlags w4 := by
    show w0.SameFlags (match w3.mode_ with
      | .LargeSongDetails => { w3 with details_height := tk.text_height }
      | .SmallSongDetails => w3)
    split
    · exact ⟨h3.1, h3.2⟩
    · exact h3
  have h5 := sameFlags_trans h4 (updateHeight_flags w4)
  exact ⟨h5.1.trans h0.1, h5.2.trans h0.2⟩

theorem albumArtLoaded_inv (song : Song) (image : QImage) (tk : Toolkit) (w : Widget)
    (h : w.active_ = true → w.playing_ = true) :
    (w.AlbumArtLoaded song image tk).active_ = true →
      (w.AlbumArtLoaded song image tk).playing_ = true := by
  unfold Widget.AlbumArtLoaded
  lift_lets
  intro w1
  split
  · exact h
  · next hg =>
    split
    · exact h
    · have hp : w.playing_ = true := by
        cases hw : w.playing_
        · simp [hw] at hg
        · rfl
      have h1 := sameFlags_trans (setImage_flags image tk w1)
        (getCoverAutomatically_flags tk (w1.SetImage image tk))
      intro _
      exact h1.2.trans hp

theorem step_inv (op : Op) (w : Widget) (h : w.active_ = true → w.playing_ = true) :
    (w.step op).active_ = true → (w.step op).playing_ = true := by
  have same : ∀ v : Widget, w.SameFlags v → v.active_ = true → v.playing_ = true := by
    intro v hv ha
    rw [hv.2]; exact h (hv.1 ▸ ha)
  have off : ∀ v u : Widget, v.active_ = false → v.SameFlags u →
      u.active_ = true → u.playing_ = true := by
    intro v u hv hu ha
    rw [hu.1, hv] at ha; cases ha
  cases op with
  | Playing => exact h
  | Stopped =>
    exact off { w with playing_ := false, active_ := false, song_playing_ := w.song_empty_,
                       song_ := w.song_empty_ } _ rfl (setVisible_flags false _)
  | Error => intro ha; cases ha
  | SongChanged song => intro _; rfl
  | AlbumArtLoaded song image tk => exact albumArtLoaded_inv song image tk w h
  | SetEnabled =>
    exact same _ (sameFlags_ite w _ _ _
      (sameFlags_trans (v := { w with enabled_ := true }) ⟨rfl, rfl⟩ (setVisible_flags true _))
      ⟨rfl, rfl⟩)
  | SetDisabled =>
    exact same _ (sameFlags_ite w _ _ _
      (sameFlags_trans (v := { w with enabled_ := false }) ⟨rfl, rfl⟩ (setVisible_flags false _))
      ⟨rfl, rfl⟩)
  | SetHeight height => exact same _ (setHeight_flags height w)
  | set_ideal_height height =>
    exact same _ (sameFlags_trans (v := { w with small_ideal_height_ := height }) ⟨rfl, rfl⟩
      (updateHeight_flags _))
  | SetMode mode tk =>
    exact same _ (sameFlags_trans (sameFlags_trans (v := { w with mode_ := mode }) ⟨rfl, rfl⟩
      (updateHeight_flags _)) (updateDetailsText_flags tk _))
  | FitCoverWidth fit =>
    exact same _ (sameFlags_trans (v := { w with fit_width_ := fit }) ⟨rfl, rfl⟩
      (updateHeight_flags _))
  | FadePreviousTrack fuzzyZero =>
    exact same _ (sameFlags_ite w _ _ _ ⟨rfl, rfl⟩ (sameFlags_ite w _ _ _ ⟨rfl, rfl⟩ ⟨rfl, rfl⟩))
  | resizeEvent width height tk =>
    refine same _ ?_
    show w.SameFlags (match ({ w with width := width, height := height } : Widget).mode_ with
      | .LargeSongDetails =>
        (({ w with width := width, height := height } : Widget).UpdateHeight).UpdateDetailsText tk
      | .SmallSongDetails => { w with width := width, height := height })
    split
    · exact sameFlags_trans (sameFlags_trans
        (v := { w with width := width, height := height }) ⟨rfl, rfl⟩
        (updateHeight_flags _)) (updateDetailsText_flags tk _)
    · exact ⟨rfl, rfl⟩
  | AutomaticCoverSearchDone => exact h
  | SearchCoverAutomatically tk => exact same _ (getCoverAutomatically_flags tk w)
  | showHideFinished => exact h
  | fadeFinished => exact h

theorem run_inv (ops : List Op) : ∀ w : Widget, (w.active_ = true → w.playing_ = true) →
    (w.run ops).active_ = true → (w.run ops).playing_ = true := by
  induction ops with
  | nil => intro w h; exact h
  | cons op rest ih => intro w h; exact ih (w.step op) (step_inv op w h)

/-- C11 (active implies playing): a new widget is neither active nor playing,
and in the state reached from construction through any sequence of calls of
`Playing`, `Stopped`, `Error`, `SongChanged`, `AlbumArtLoaded`, `SetEnabled`
and `SetDisabled` (and also of the other slots and event handlers of the
widget, and of the ends of its timelines) `active_` implies `playing_`. -/
theorem C11_active_implies_playing (mode : Mode) (fit_width : Bool)
    (width height details0 total0 desired0 : Int) (tk : Toolkit) (song0 : Song)
    (ops : List Op) :
    ((Widget.ctor mode fit_width width height details0 total0 desired0 tk song0).run
        ops).active_ = true →
      ((Widget.ctor mode fit_width width height details0 total0 desired0 tk song0).run
        ops).playing_ = true := by
  apply run_inv
  intro ha
  rw [(ctor_flags mode fit_width width height details0 total0 desired0 tk song0).1] at ha
  cases ha

theorem C11_active_implies_playing_witness :
    (widget0.run [.SetEnabled, .SongChanged song1, .AlbumArtLoaded song1 7 tk1]).active_ = true ∧
      (widget0.run [.SetEnabled, .SongChanged song1, .AlbumArtLoaded song1 7 tk1]).playing_ =
        true :=
  ⟨by decide,
    C11_active_implies_playing .LargeSongDetails false 300 0 0 0 120 tk1 songNone
      [.SetEnabled, .SongChanged song1, .AlbumArtLoaded song1 7 tk1] (by decide)⟩

end Strawberry
